import Mathlib

/-!
Verification development for the youdaonote-pull synchronization subsystem.

The Python modules `youdaonote/sync.py`, `youdaonote/sync_metadata.py` and
`youdaonote/dedup.py` are shallowly embedded below.  Python dictionaries are
modelled as association lists with first-match lookup, in-place replacement on
insert, and filtering on delete (dictionary keys are unique by construction,
so filtering coincides with single-key deletion).  Python truthiness on the
values that actually flow through the code is modelled explicitly: a string is
truthy iff it is nonempty, an integer iff it is nonzero, `None` is falsy.
-/

set_option maxHeartbeats 1000000
set_option maxRecDepth 100000

namespace Youdao

/-! ### Python dictionaries as association lists -/

/-- Lookup of a key in a Python-dict model: first matching entry. -/
def dget {β : Type} : List (String × β) → String → Option β
  | [], _ => none
  | (k, v) :: t, q => if k = q then some v else dget t q

/-- Assignment `d[k] = v` in a Python-dict model: replace the first entry with
key `k` in place, or append a fresh entry at the end (insertion order). -/
def dset {β : Type} : List (String × β) → String → β → List (String × β)
  | [], k, v => [(k, v)]
  | (k0, v0) :: t, k, v => if k0 = k then (k, v) :: t else (k0, v0) :: dset t k v

/-- Deletion `del d[k]` in a Python-dict model.  Keys are unique in every
state this development builds, so removing all matches equals removing the
single match. -/
def ddel {β : Type} (m : List (String × β)) (k : String) : List (String × β) :=
  m.filter (fun e => e.1 != k)

/-- Keys of a Python-dict model, in insertion order. -/
def dkeys {β : Type} (m : List (String × β)) : List String :=
  m.map (fun e => e.1)

theorem dget_dset_self {β : Type} (m : List (String × β)) (k : String) (v : β) :
    dget (dset m k v) k = some v := by
  induction m with
  | nil => simp [dset, dget]
  | cons e t ih =>
      obtain ⟨k0, v0⟩ := e
      by_cases h0 : k0 = k
      · subst h0
        simp [dset, dget]
      · simp [dset, dget, h0, ih]

theorem dget_dset_ne {β : Type} (m : List (String × β)) (k : String) (v : β)
    {q : String} (hq : q ≠ k) : dget (dset m k v) q = dget m q := by
  induction m with
  | nil => simp [dset, dget, Ne.symm hq]
  | cons e t ih =>
      obtain ⟨k0, v0⟩ := e
      by_cases h0 : k0 = k
      · subst h0
        simp [dset, dget, Ne.symm hq]
      · by_cases hq0 : k0 = q
        · subst hq0
          simp [dset, dget, h0]
        · simp [dset, dget, h0, hq0, ih]

theorem dget_ddel_self {β : Type} (m : List (String × β)) (k : String) :
    dget (ddel m k) k = none := by
  induction m with
  | nil => simp [ddel, dget]
  | cons e t ih =>
      obtain ⟨k0, v0⟩ := e
      by_cases h0 : k0 = k
      · simpa [ddel, List.filter_cons, h0, dget] using ih
      · simpa [ddel, List.filter_cons, h0, dget] using ih

theorem dget_ddel_ne {β : Type} (m : List (String × β)) (k : String)
    {q : String} (hq : q ≠ k) : dget (ddel m k) q = dget m q := by
  induction m with
  | nil => simp [ddel, dget]
  | cons e t ih =>
      obtain ⟨k0, v0⟩ := e
      by_cases h0 : k0 = k
      · subst h0
        simpa [ddel, List.filter_cons, dget, Ne.symm hq] using ih
      · by_cases hq0 : k0 = q
        · subst hq0
          simp [ddel, List.filter_cons, h0, dget]
        · simpa [ddel, List.filter_cons, h0, dget, hq0] using ih

theorem dget_isSome_dset {β : Type} (m : List (String × β)) (k : String) (v : β)
    (q : String) (h : (dget m q).isSome) : (dget (dset m k v) q).isSome := by
  by_cases hq : q = k
  · subst hq
    simp [dget_dset_self]
  · rw [dget_dset_ne m k v hq]
    exact h

theorem mem_dset {β : Type} {m : List (String × β)} {k : String} {v : β}
    {e : String × β} (h : e ∈ dset m k v) : e = (k, v) ∨ e ∈ m := by
  induction m with
  | nil => simpa [dset] using h
  | cons e0 t ih =>
      obtain ⟨k0, v0⟩ := e0
      simp only [dset] at h
      by_cases h0 : k0 = k
      · rw [if_pos h0] at h
        rcases List.mem_cons.mp h with h1 | h1
        · exact Or.inl h1
        · exact Or.inr (List.mem_cons_of_mem _ h1)
      · rw [if_neg h0] at h
        rcases List.mem_cons.mp h with h1 | h1
        · exact Or.inr (by simp [h1])
        · rcases ih h1 with h2 | h2
          · exact Or.inl h2
          · exact Or.inr (List.mem_cons_of_mem _ h2)

theorem mem_dset_of_mem {β : Type} {m : List (String × β)} {e : String × β}
    (k : String) (v : β) (he : e ∈ m) (hk : e.1 ≠ k) : e ∈ dset m k v := by
  induction m with
  | nil => cases he
  | cons e0 t ih =>
      obtain ⟨k0, v0⟩ := e0
      simp only [dset]
      by_cases h0 : k0 = k
      · subst h0
        rw [if_pos rfl]
        rcases List.mem_cons.mp he with h1 | h1
        · exact absurd (by simp [h1]) hk
        · exact List.mem_cons_of_mem _ h1
      · rw [if_neg h0]
        rcases List.mem_cons.mp he with h1 | h1
        · exact h1 ▸ List.mem_cons_self _ _
        · exact List.mem_cons_of_mem _ (ih h1)

theorem mem_ddel {β : Type} {m : List (String × β)} {k : String}
    {e : String × β} (h : e ∈ ddel m k) : e ∈ m ∧ e.1 ≠ k := by
  have h2 := List.of_mem_filter h
  refine ⟨List.mem_of_mem_filter h, ?_⟩
  simpa using h2

theorem mem_ddel_of_mem {β : Type} {m : List (String × β)} {k : String}
    {e : String × β} (he : e ∈ m) (hk : e.1 ≠ k) : e ∈ ddel m k := by
  exact List.mem_filter.mpr ⟨he, by simpa using hk⟩

theorem dget_mem {β : Type} {m : List (String × β)} {p : String} {r : β}
    (h : dget m p = some r) : (p, r) ∈ m := by
  induction m with
  | nil => simp [dget] at h
  | cons e t ih =>
      obtain ⟨k0, v0⟩ := e
      simp only [dget] at h
      by_cases h0 : k0 = p
      · rw [if_pos h0] at h
        cases h
        simp [h0]
      · rw [if_neg h0] at h
        exact List.mem_cons_of_mem _ (ih h)

theorem mem_dget_of_nodup {β : Type} {m : List (String × β)} {p : String} {r : β}
    (hnd : (dkeys m).Nodup) (h : (p, r) ∈ m) : dget m p = some r := by
  induction m with
  | nil => cases h
  | cons e t ih =>
      obtain ⟨k0, v0⟩ := e
      rw [show dkeys ((k0, v0) :: t) = k0 :: dkeys t from rfl, List.nodup_cons] at hnd
      rcases List.mem_cons.mp h with h1 | h1
      · cases h1
        simp [dget]
      · have hk : k0 ≠ p := by
          intro hk
          subst hk
          exact hnd.1 (List.mem_map.mpr ⟨(k0, r), h1, rfl⟩)
        simpa [dget, hk] using ih hnd.2 h1

theorem nodup_dkeys_dset {β : Type} {m : List (String × β)} (k : String) (v : β)
    (hnd : (dkeys m).Nodup) : (dkeys (dset m k v)).Nodup := by
  induction m with
  | nil => simp [dset, dkeys]
  | cons e t ih =>
      obtain ⟨k0, v0⟩ := e
      rw [show dkeys ((k0, v0) :: t) = k0 :: dkeys t from rfl, List.nodup_cons] at hnd
      by_cases h0 : k0 = k
      · subst h0
        rw [show dset ((k0, v0) :: t) k0 v = (k0, v) :: t from by simp [dset]]
        rw [show dkeys ((k0, v) :: t) = k0 :: dkeys t from rfl, List.nodup_cons]
        exact hnd
      · rw [show dset ((k0, v0) :: t) k v = (k0, v0) :: dset t k v from by simp [dset, h0]]
        rw [show dkeys ((k0, v0) :: dset t k v) = k0 :: dkeys (dset t k v) from rfl,
          List.nodup_cons]
        refine ⟨?_, ih hnd.2⟩
        intro hmem
        rcases List.mem_map.mp hmem with ⟨e2, he2, hke⟩
        rcases mem_dset he2 with h2 | h2
        · exact h0 (by rw [h2] at hke; exact hke.symm ▸ rfl)
        · exact hnd.1 (List.mem_map.mpr ⟨e2, h2, hke⟩)

theorem nodup_dkeys_ddel {β : Type} {m : List (String × β)} (k : String)
    (hnd : (dkeys m).Nodup) : (dkeys (ddel m k)).Nodup := by
  have hsub : List.Sublist (dkeys (ddel m k)) (dkeys m) :=
    List.Sublist.map _ (List.filter_sublist m)
  exact hnd.sublist hsub

theorem exists_mem_find?_isSome {β : Type} {l : List β} {p : β → Bool}
    {x : β} (hx : x ∈ l) (hpx : p x = true) : (l.find? p).isSome := by
  induction l with
  | nil => cases hx
  | cons y t ih =>
      rcases List.mem_cons.mp hx with h | h
      · subst h
        simp [List.find?, hpx]
      · by_cases hy : p y
        · simp [List.find?, hy]
        · simpa [List.find?, hy] using ih h

/-! ### Synchronization decision function

Embedding of `sync.py` lines 465-505 (`decide_action`).  Timestamps may be
absent (`None`), modelled as `Option Int`; Python truthiness makes `None` and
`0` falsy in the expressions `local_mtime and local_mtime > meta_local_mtime`
and `if local_mtime and cloud_mtime`. -/

inductive SyncAction where
  | DOWNLOAD
  | UPLOAD
  | SKIP
  | CONFLICT
deriving DecidableEq, Repr

/-- Truthiness of an optional integer: `None` and `0` are falsy. -/
def truthyInt : Option Int → Bool
  | none => false
  | some n => n != 0

/-- Value of `meta is None or (scanned and scanned > meta)` (sync.py 490-491),
with Python truthiness on `scanned`. -/
def changed_flag (scanned meta : Option Int) : Bool :=
  match meta with
  | none => true
  | some m =>
      match scanned with
      | none => false
      | some s => s != 0 && decide (s > m)

/-- Body of the both-changed branch of `decide_action` (sync.py 493-499):
compare the two mtimes only when both are truthy, otherwise CONFLICT. -/
def compare_both_changed : Option Int → Option Int → SyncAction
  | some lm, some cm =>
      if lm != 0 && cm != 0 then
        if decide (lm > cm) then SyncAction.UPLOAD
        else if decide (cm > lm) then SyncAction.DOWNLOAD
        else SyncAction.CONFLICT
      else SyncAction.CONFLICT
  | some _, none => SyncAction.CONFLICT
  | none, some _ => SyncAction.CONFLICT
  | none, none => SyncAction.CONFLICT

/-- Embedding of `decide_action` (sync.py 465-505), following the Python
control flow, including the truthiness guards on mtimes. -/
def decide_action (local_exists cloud_exists : Bool)
    (local_mtime cloud_mtime meta_local_mtime meta_cloud_mtime : Option Int) :
    SyncAction :=
  if !local_exists && !cloud_exists then SyncAction.SKIP
  else if local_exists && !cloud_exists then SyncAction.UPLOAD
  else if !local_exists && cloud_exists then SyncAction.DOWNLOAD
  else
    let local_changed := changed_flag local_mtime meta_local_mtime
    let cloud_changed := changed_flag cloud_mtime meta_cloud_mtime
    if local_changed && cloud_changed then
      compare_both_changed local_mtime cloud_mtime
    else if local_changed then SyncAction.UPLOAD
    else if cloud_changed then SyncAction.DOWNLOAD
    else SyncAction.SKIP

/-- Strict comparison of optional integers, false when either side is absent;
used to phrase the decision table of spec section 4.3. -/
def gtOpt : Option Int → Option Int → Bool
  | some a, some b => decide (a > b)
  | some _, none => false
  | none, some _ => false
  | none, none => false

/-- Decision table exactly as claim C1 and spec section 4.3 word it:
`local_changed = (meta_local_mtime is absent) or (local_mtime > meta_local_mtime)`
and, when both sides exist and both changed, the result compares the raw
integer mtimes with CONFLICT on equality. -/
def decide_action_claim_table (local_exists cloud_exists : Bool)
    (local_mtime cloud_mtime meta_local_mtime meta_cloud_mtime : Option Int) :
    SyncAction :=
  if !local_exists && !cloud_exists then SyncAction.SKIP
  else if local_exists && !cloud_exists then SyncAction.UPLOAD
  else if !local_exists && cloud_exists then SyncAction.DOWNLOAD
  else
    let local_changed := meta_local_mtime.isNone || gtOpt local_mtime meta_local_mtime
    let cloud_changed := meta_cloud_mtime.isNone || gtOpt cloud_mtime meta_cloud_mtime
    if local_changed && cloud_changed then
      if gtOpt local_mtime cloud_mtime then SyncAction.UPLOAD
      else if gtOpt cloud_mtime local_mtime then SyncAction.DOWNLOAD
      else SyncAction.CONFLICT
    else if local_changed then SyncAction.UPLOAD
    else if cloud_changed then SyncAction.DOWNLOAD
    else SyncAction.SKIP

/-- Amended decision table: identical to the claimed table except that a side
counts as changed only when its scanned mtime is present and nonzero (or the
stored mtime is absent), and the both-changed timestamp comparison applies only
when both mtimes are present and nonzero; otherwise the result is CONFLICT. -/
def decide_action_amended_table (local_exists cloud_exists : Bool)
    (local_mtime cloud_mtime meta_local_mtime meta_cloud_mtime : Option Int) :
    SyncAction :=
  if !local_exists && !cloud_exists then SyncAction.SKIP
  else if local_exists && !cloud_exists then SyncAction.UPLOAD
  else if !local_exists && cloud_exists then SyncAction.DOWNLOAD
  else
    let local_changed :=
      meta_local_mtime.isNone || (truthyInt local_mtime && gtOpt local_mtime meta_local_mtime)
    let cloud_changed :=
      meta_cloud_mtime.isNone || (truthyInt cloud_mtime && gtOpt cloud_mtime meta_cloud_mtime)
    if local_changed && cloud_changed then
      if truthyInt local_mtime && truthyInt cloud_mtime then
        if gtOpt local_mtime cloud_mtime then SyncAction.UPLOAD
        else if gtOpt cloud_mtime local_mtime then SyncAction.DOWNLOAD
        else SyncAction.CONFLICT
      else SyncAction.CONFLICT
    else if local_changed then SyncAction.UPLOAD
    else if cloud_changed then SyncAction.DOWNLOAD
    else SyncAction.SKIP

/-- C1 counterexample: with both sides existing, no metadata (so both sides
count as changed under the claimed rule), local mtime 5 and cloud mtime 0,
the claimed table demands UPLOAD (5 > 0) but `decide_action` returns CONFLICT,
because the code guards the timestamp comparison with Python truthiness and a
cloud mtime of 0 (the default the cloud scanner uses for a missing field) is
falsy. -/
theorem c1_decide_action_table_counterexample :
    decide_action true true (some 5) (some 0) none none = SyncAction.CONFLICT ∧
    decide_action_claim_table true true (some 5) (some 0) none none = SyncAction.UPLOAD := by
  constructor <;> rfl

/-- C1 amended: `decide_action` agrees with the nine-row decision table once
`changed` uses truthiness (absent metadata mtime, or present nonzero scanned
mtime strictly greater) and the both-changed comparison is guarded by both
mtimes being present and nonzero, with CONFLICT otherwise. -/
theorem c1_decide_action_matches_amended_table (local_exists cloud_exists : Bool)
    (local_mtime cloud_mtime meta_local_mtime meta_cloud_mtime : Option Int) :
    decide_action local_exists cloud_exists local_mtime cloud_mtime
        meta_local_mtime meta_cloud_mtime =
      decide_action_amended_table local_exists cloud_exists local_mtime cloud_mtime
        meta_local_mtime meta_cloud_mtime := by
  cases local_exists <;> cases cloud_exists <;>
    cases local_mtime <;> cases cloud_mtime <;>
    cases meta_local_mtime <;> cases meta_cloud_mtime <;>
    simp [decide_action, decide_action_amended_table, changed_flag,
      compare_both_changed, truthyInt, gtOpt]


/-! ### Byte-level content normalization and MD5

Embedding of `SyncMetadata.compute_content_hash` (sync_metadata.py 309-324):
the file bytes are normalized with `data.replace(CRLF, LF).replace(BOM, empty)`
and then MD5-hashed to a lowercase hex digest.  MD5 is implemented below over
`List Nat` bytes with 32-bit words as `Nat` reduced modulo `2 ^ 32`. -/

/-- Reduction of a machine word modulo `2 ^ 32`. -/
def u32 (n : Nat) : Nat := n % 4294967296

def rotl32 (x s : Nat) : Nat := u32 ((x <<< s) ||| (x >>> (32 - s)))

def md5_K : List Nat :=
  [0xd76aa478, 0xe8c7b756, 0x242070db, 0xc1bdceee,
   0xf57c0faf, 0x4787c62a, 0xa8304613, 0xfd469501,
   0x698098d8, 0x8b44f7af, 0xffff5bb1, 0x895cd7be,
   0x6b901122, 0xfd987193, 0xa679438e, 0x49b40821,
   0xf61e2562, 0xc040b340, 0x265e5a51, 0xe9b6c7aa,
   0xd62f105d, 0x02441453, 0xd8a1e681, 0xe7d3fbc8,
   0x21e1cde6, 0xc33707d6, 0xf4d50d87, 0x455a14ed,
   0xa9e3e905, 0xfcefa3f8, 0x676f02d9, 0x8d2a4c8a,
   0xfffa3942, 0x8771f681, 0x6d9d6122, 0xfde5380c,
   0xa4beea44, 0x4bdecfa9, 0xf6bb4b60, 0xbebfbc70,
   0x289b7ec6, 0xeaa127fa, 0xd4ef3085, 0x04881d05,
   0xd9d4d039, 0xe6db99e5, 0x1fa27cf8, 0xc4ac5665,
   0xf4292244, 0x432aff97, 0xab9423a7, 0xfc93a039,
   0x655b59c3, 0x8f0ccc92, 0xffeff47d, 0x85845dd1,
   0x6fa87e4f, 0xfe2ce6e0, 0xa3014314, 0x4e0811a1,
   0xf7537e82, 0xbd3af235, 0x2ad7d2bb, 0xeb86d391]

def md5_S : List Nat :=
  [7, 12, 17, 22, 7, 12, 17, 22, 7, 12, 17, 22, 7, 12, 17, 22,
   5, 9, 14, 20, 5, 9, 14, 20, 5, 9, 14, 20, 5, 9, 14, 20,
   4, 11, 16, 23, 4, 11, 16, 23, 4, 11, 16, 23, 4, 11, 16, 23,
   6, 10, 15, 21, 6, 10, 15, 21, 6, 10, 15, 21, 6, 10, 15, 21]

def md5_mix (i b c d : Nat) : Nat :=
  if i < 16 then (b &&& c) ||| ((4294967295 ^^^ b) &&& d)
  else if i < 32 then (d &&& b) ||| ((4294967295 ^^^ d) &&& c)
  else if i < 48 then b ^^^ c ^^^ d
  else c ^^^ (b ||| (4294967295 ^^^ d))

def md5_idx (i : Nat) : Nat :=
  if i < 16 then i
  else if i < 32 then (5 * i + 1) % 16
  else if i < 48 then (3 * i + 5) % 16
  else (7 * i) % 16

def md5_word (chunk : List Nat) (j : Nat) : Nat :=
  chunk.getD (4 * j) 0 + 256 * chunk.getD (4 * j + 1) 0 +
    65536 * chunk.getD (4 * j + 2) 0 + 16777216 * chunk.getD (4 * j + 3) 0

def md5_round (chunk : List Nat) (st : Nat × Nat × Nat × Nat) (i : Nat) :
    Nat × Nat × Nat × Nat :=
  match st with
  | (a, b, c, d) =>
      let f := u32 (md5_mix i b c d + a + md5_K.getD i 0 + md5_word chunk (md5_idx i))
      (d, u32 (b + rotl32 f (md5_S.getD i 0)), b, c)

def md5_chunk (st : Nat × Nat × Nat × Nat) (chunk : List Nat) :
    Nat × Nat × Nat × Nat :=
  match st with
  | (a0, b0, c0, d0) =>
      match (List.range 64).foldl (md5_round chunk) (a0, b0, c0, d0) with
      | (a, b, c, d) => (u32 (a0 + a), u32 (b0 + b), u32 (c0 + c), u32 (d0 + d))

def le_bytes : Nat → Nat → List Nat
  | _, 0 => []
  | n, k + 1 => n % 256 :: le_bytes (n / 256) k

def md5_pad (msg : List Nat) : List Nat :=
  let padzeros := (119 - msg.length % 64) % 64
  msg ++ [128] ++ List.replicate padzeros 0 ++ le_bytes (8 * msg.length) 8

def md5_split_fuel : Nat → List Nat → List (List Nat)
  | 0, _ => []
  | _ + 1, [] => []
  | fuel + 1, b :: rest => ((b :: rest).take 64) :: md5_split_fuel fuel ((b :: rest).drop 64)

def md5_split (l : List Nat) : List (List Nat) := md5_split_fuel l.length l

def hex_char (n : Nat) : Char :=
  if n < 10 then Char.ofNat (48 + n) else Char.ofNat (87 + n)

def bytes_to_hex (bs : List Nat) : String :=
  String.mk (bs.flatMap (fun b => [hex_char (b / 16), hex_char (b % 16)]))

def md5_bytes (msg : List Nat) : List Nat :=
  match (md5_split (md5_pad msg)).foldl md5_chunk
      (0x67452301, 0xefcdab89, 0x98badcfe, 0x10325476) with
  | (a, b, c, d) => le_bytes a 4 ++ le_bytes b 4 ++ le_bytes c 4 ++ le_bytes d 4

def md5_hex (msg : List Nat) : String := bytes_to_hex (md5_bytes msg)

/-- Bool prefix test on byte lists, used by the `bytes.replace` model. -/
def is_prefix_bytes : List Nat → List Nat → Bool
  | [], _ => true
  | _ :: _, [] => false
  | a :: as2, b :: bs => a == b && is_prefix_bytes as2 bs

/-- Fuel-driven worker for `bytes_replace`; the fuel is an upper bound on the
input length, so the first case is never reached from `bytes_replace`. -/
def bytes_replace_fuel : Nat → List Nat → List Nat → List Nat → List Nat
  | 0, _, _, l => l
  | _ + 1, _, _, [] => []
  | fuel + 1, pat, rep, b :: rest =>
      if !pat.isEmpty && is_prefix_bytes pat (b :: rest) then
        rep ++ bytes_replace_fuel fuel pat rep ((b :: rest).drop pat.length)
      else b :: bytes_replace_fuel fuel pat rep rest

/-- Python `bytes.replace(pat, rep)`: left-to-right, non-overlapping, scanning
resumes after each replacement. -/
def bytes_replace (pat rep l : List Nat) : List Nat :=
  bytes_replace_fuel l.length pat rep l

/-- Embedding of `SyncMetadata.compute_content_hash` (sync_metadata.py
309-324).  The argument is the result of reading the file: `none` models a
missing or unreadable file (the Python code catches every exception and
returns `None`); `some data` carries the raw bytes. -/
def compute_content_hash : Option (List Nat) → Option String
  | none => none
  | some data =>
      some (md5_hex (bytes_replace [239, 187, 191] []
        (bytes_replace [13, 10] [10] data)))

/-- CRLF-to-LF replacement written from the spec wording, by direct recursion:
every CRLF pair becomes a single LF. -/
def crlf_to_lf : List Nat → List Nat
  | [] => []
  | [b] => [b]
  | b :: b2 :: rest =>
      if b = 13 ∧ b2 = 10 then 10 :: crlf_to_lf rest
      else b :: crlf_to_lf (b2 :: rest)

/-- Removal of every occurrence of the UTF-8 BOM byte sequence, written from
the amended wording by direct recursion. -/
def strip_all_bom : List Nat → List Nat
  | [] => []
  | [b] => [b]
  | [b, b2] => [b, b2]
  | b :: b2 :: b3 :: rest =>
      if b = 239 ∧ b2 = 187 ∧ b3 = 191 then strip_all_bom rest
      else b :: strip_all_bom (b2 :: b3 :: rest)

/-- Normalization exactly as claim C6 words it: replace every CRLF with LF,
then strip one leading UTF-8 BOM only, preserving BOM bytes elsewhere. -/
def normalize_claimed (data : List Nat) : List Nat :=
  let d1 := crlf_to_lf data
  if is_prefix_bytes [239, 187, 191] d1 then d1.drop 3 else d1

theorem bytes_replace_fuel_nil (fuel : Nat) (pat rep : List Nat) :
    bytes_replace_fuel fuel pat rep [] = [] := by
  cases fuel <;> rfl

theorem bytes_replace_fuel_cons (n : Nat) (pat rep : List Nat) (b : Nat)
    (rest : List Nat) :
    bytes_replace_fuel (n + 1) pat rep (b :: rest) =
      if !pat.isEmpty && is_prefix_bytes pat (b :: rest) then
        rep ++ bytes_replace_fuel n pat rep ((b :: rest).drop pat.length)
      else b :: bytes_replace_fuel n pat rep rest := rfl

theorem bytes_replace_fuel_crlf (fuel : Nat) :
    ∀ l : List Nat, l.length ≤ fuel →
      bytes_replace_fuel fuel [13, 10] [10] l = crlf_to_lf l := by
  induction fuel with
  | zero =>
      intro l hl
      have hnil : l = [] := List.length_eq_zero.mp (Nat.le_zero.mp hl)
      subst hnil
      rfl
  | succ n ih =>
      intro l hl
      match l with
      | [] => rfl
      | [b] =>
          rw [bytes_replace_fuel_cons]
          have hc : (!List.isEmpty [13, 10] && is_prefix_bytes [13, 10] [b]) = false := by
            simp [is_prefix_bytes]
          rw [hc]
          simp [bytes_replace_fuel_nil, crlf_to_lf]
      | b :: b2 :: rest =>
          rw [bytes_replace_fuel_cons]
          by_cases h : b = 13 ∧ b2 = 10
          · obtain ⟨h1, h2⟩ := h
            subst h1
            subst h2
            have hc :
                (!List.isEmpty [13, 10] && is_prefix_bytes [13, 10] (13 :: 10 :: rest)) =
                  true := by
              simp [is_prefix_bytes]
            rw [hc]
            have hlen : rest.length ≤ n := by
              simp only [List.length_cons] at hl
              omega
            simp only [if_true, List.drop_succ_cons, List.drop_zero, List.length_cons,
              List.length_nil]
            rw [ih rest hlen]
            simp [crlf_to_lf]
          · have hc :
                (!List.isEmpty [13, 10] && is_prefix_bytes [13, 10] (b :: b2 :: rest)) =
                  false := by
              simp only [is_prefix_bytes, List.isEmpty_cons, Bool.not_false,
                Bool.true_and, Bool.and_true, Bool.and_eq_false_iff]
              simp only [beq_eq_false_iff_ne, ne_eq]
              omega
            rw [hc]
            have hlen : (b2 :: rest).length ≤ n := by
              simp only [List.length_cons] at hl ⊢
              omega
            simp only [if_false, Bool.false_eq_true]
            rw [ih (b2 :: rest) hlen]
            simp [crlf_to_lf, h]

theorem bytes_replace_crlf_eq (l : List Nat) :
    bytes_replace [13, 10] [10] l = crlf_to_lf l :=
  bytes_replace_fuel_crlf l.length l (Nat.le_refl _)

theorem bytes_replace_fuel_bom (fuel : Nat) :
    ∀ l : List Nat, l.length ≤ fuel →
      bytes_replace_fuel fuel [239, 187, 191] [] l = strip_all_bom l := by
  induction fuel with
  | zero =>
      intro l hl
      have hnil : l = [] := List.length_eq_zero.mp (Nat.le_zero.mp hl)
      subst hnil
      rfl
  | succ n ih =>
      intro l hl
      match l with
      | [] => rfl
      | [b] =>
          rw [bytes_replace_fuel_cons]
          have hc : (!List.isEmpty [239, 187, 191] && is_prefix_bytes [239, 187, 191] [b]) =
              false := by
            simp [is_prefix_bytes]
          rw [hc]
          simp [bytes_replace_fuel_nil, strip_all_bom]
      | [b, b2] =>
          rw [bytes_replace_fuel_cons]
          have hc :
              (!List.isEmpty [239, 187, 191] &&
                  is_prefix_bytes [239, 187, 191] [b, b2]) = false := by
            simp [is_prefix_bytes]
          rw [hc]
          have hlen : ([b2] : List Nat).length ≤ n := by
            simp only [List.length_cons] at hl ⊢
            omega
          simp only [if_false, Bool.false_eq_true]
          rw [ih [b2] hlen]
          simp [strip_all_bom]
      | b :: b2 :: b3 :: rest =>
          rw [bytes_replace_fuel_cons]
          by_cases h : b = 239 ∧ b2 = 187 ∧ b3 = 191
          · obtain ⟨h1, h2, h3⟩ := h
            subst h1
            subst h2
            subst h3
            have hc :
                (!List.isEmpty [239, 187, 191] &&
                    is_prefix_bytes [239, 187, 191] (239 :: 187 :: 191 :: rest)) = true := by
              simp [is_prefix_bytes]
            rw [hc]
            have hlen : rest.length ≤ n := by
              simp only [List.length_cons] at hl
              omega
            simp only [if_true]
            rw [show List.drop ([239, 187, 191] : List Nat).length
                (239 :: 187 :: 191 :: rest) = rest from rfl]
            rw [ih rest hlen]
            simp [strip_all_bom]
          · have hc :
                (!List.isEmpty [239, 187, 191] &&
                    is_prefix_bytes [239, 187, 191] (b :: b2 :: b3 :: rest)) = false := by
              simp only [is_prefix_bytes, List.isEmpty_cons, Bool.not_false,
                Bool.true_and, Bool.and_true, Bool.and_eq_false_iff]
              simp only [beq_eq_false_iff_ne, ne_eq]
              omega
            rw [hc]
            have hlen : (b2 :: b3 :: rest).length ≤ n := by
              simp only [List.length_cons] at hl ⊢
              omega
            simp only [if_false, Bool.false_eq_true]
            rw [ih (b2 :: b3 :: rest) hlen]
            simp [strip_all_bom, h]

theorem bytes_replace_bom_eq (l : List Nat) :
    bytes_replace [239, 187, 191] [] l = strip_all_bom l :=
  bytes_replace_fuel_bom l.length l (Nat.le_refl _)

/-- Sanity check: the embedded MD5 agrees with the `_EMPTY_MD5` constant that
dedup.py line 24 records for the empty input. -/
theorem md5_hex_empty_input : md5_hex [] = "d41d8cd98f00b204e9800998ecf8427e" := by
  decide

/-- C6 counterexample: on the bytes `0x41 EF BB BF` (letter A followed by a
BOM sequence that is not leading), the code hashes `[0x41]` because it removes
every BOM occurrence, while the claim demands the hash of the unchanged bytes
(non-leading BOM preserved); the two digests differ. -/
theorem c6_compute_content_hash_counterexample :
    compute_content_hash (some [65, 239, 187, 191]) =
        some (md5_hex [65]) ∧
      md5_hex (normalize_claimed [65, 239, 187, 191]) =
        md5_hex [65, 239, 187, 191] ∧
      compute_content_hash (some [65, 239, 187, 191]) ≠
        some (md5_hex (normalize_claimed [65, 239, 187, 191])) := by
  refine ⟨by decide, by decide, by decide⟩

/-- C6 amended: `compute_content_hash` returns `none` for an unreadable or
missing file, and otherwise the MD5 hex digest of the bytes after replacing
every CRLF pair with LF and then removing every occurrence of the UTF-8 BOM
byte sequence, leading or not. -/
theorem c6_compute_content_hash_amended :
    compute_content_hash none = none ∧
      ∀ data : List Nat,
        compute_content_hash (some data) =
          some (md5_hex (strip_all_bom (crlf_to_lf data))) := by
  refine ⟨rfl, fun data => ?_⟩
  simp only [compute_content_hash, bytes_replace_crlf_eq, bytes_replace_bom_eq]


/-! ### Metadata store

Embedding of `SyncMetadata` (sync_metadata.py).  The `_data` dictionary holds
two maps, `files` and `directories`; `_hash_index` is the reverse index
`content_hash -> path`.  File records created by the store always carry the
three required fields and optional extras, modelled as a structure with
`Option` fields; absent optional keys are `none`.  The `local_mtime` fallback
of `set_file_info` (sync_metadata.py 159-170, which stats the filesystem when
the caller omits the argument) is resolved by the caller in this model: the
argument below is the already-resolved integer. -/

structure FileRec where
  file_id : String
  cloud_mtime : Int
  local_mtime : Int
  parent_id : Option String
  domain : Option Int
  content_hash : Option String
  create_time : Option Int
deriving DecidableEq, Repr

structure DirRec where
  dir_id : String
  parent_id : Option String
deriving DecidableEq, Repr

structure MetaState where
  files : List (String × FileRec)
  directories : List (String × DirRec)
  hash_index : List (String × String)
deriving Repr

/-- The store state immediately after construction with no metadata file. -/
def empty_meta : MetaState := ⟨[], [], []⟩

/-- Embedding of `SyncMetadata._normalize_path` with no base directory:
`local_path.replace(backslash, slash)`, modelled as a character-wise map
(the pattern and replacement are single characters). -/
def normalize_path (p : String) : String :=
  String.mk (p.data.map (fun c => if c = Char.ofNat 92 then Char.ofNat 47 else c))

/-- Embedding of `SyncMetadata.get_file_info` (sync_metadata.py 122-130). -/
def get_file_info (s : MetaState) (local_path : String) : Option FileRec :=
  dget s.files (normalize_path local_path)

/-- Embedding of `SyncMetadata.set_file_info` (sync_metadata.py 132-187).
The record stored for the path is rebuilt from scratch from the arguments:
required fields always, `parent_id` and `domain` and `content_hash` when
supplied, `create_time` when supplied and positive.  When a content hash is
supplied and the file id is truthy, the reverse index is pointed at the path. -/
def set_file_info (s : MetaState) (local_path : String) (file_id : String)
    (cloud_mtime : Int) (local_mtime : Int) (parent_id : Option String)
    (domain : Option Int) (content_hash : Option String)
    (create_time : Option Int) : MetaState :=
  let path := normalize_path local_path
  let rec0 : FileRec :=
    { file_id := file_id
      cloud_mtime := cloud_mtime
      local_mtime := local_mtime
      parent_id := parent_id
      domain := domain
      content_hash := content_hash
      create_time :=
        match create_time with
        | some t => if t > 0 then some t else none
        | none => none }
  let files2 := dset s.files path rec0
  let hidx2 :=
    match content_hash with
    | some h => if file_id ≠ "" then dset s.hash_index h path else s.hash_index
    | none => s.hash_index
  ⟨files2, s.directories, hidx2⟩

/-- Embedding of `SyncMetadata.update_content_hash` (sync_metadata.py
326-342): update the hash stored on the record, evict the stale entry for
the old hash (re-pointing it at another holder when one exists), then point
the index for the new hash at this path when the record has a cloud id. -/
def update_content_hash (s : MetaState) (local_path : String)
    (content_hash : String) : MetaState :=
  let path := normalize_path local_path
  match dget s.files path with
  | none => s
  | some r =>
      let old_hash := r.content_hash
      let r2 := { r with content_hash := some content_hash }
      let files2 := dset s.files path r2
      let hidx1 :=
        match old_hash with
        | some oh =>
            if oh ≠ "" ∧ oh ≠ content_hash ∧ dget s.hash_index oh = some path then
              let deleted := ddel s.hash_index oh
              match files2.find? (fun e =>
                  e.1 != path && e.2.content_hash == some oh && e.2.file_id != "") with
              | some e => dset deleted oh e.1
              | none => deleted
            else s.hash_index
        | none => s.hash_index
      let hidx2 := if r2.file_id ≠ "" then dset hidx1 content_hash path else hidx1
      ⟨files2, s.directories, hidx2⟩

/-- Embedding of `SyncMetadata.remove_file` (sync_metadata.py 211-227):
delete the record; if the reverse index pointed at this path, drop that entry
and re-point it at another path holding the same hash with a cloud id, when
one exists. -/
def remove_file (s : MetaState) (local_path : String) : MetaState :=
  let path := normalize_path local_path
  match dget s.files path with
  | none => s
  | some r =>
      let files2 := ddel s.files path
      let hidx2 :=
        match r.content_hash with
        | some h =>
            if h ≠ "" ∧ dget s.hash_index h = some path then
              let deleted := ddel s.hash_index h
              match files2.find? (fun e =>
                  e.2.content_hash == some h && e.2.file_id != "") with
              | some e => dset deleted h e.1
              | none => deleted
            else s.hash_index
        | none => s.hash_index
      ⟨files2, s.directories, hidx2⟩

/-- Worker for `_rebuild_hash_index` (sync_metadata.py 99-107): first holder
of each hash wins, in iteration order. -/
def rebuild_hash_aux : List (String × FileRec) → List (String × String) →
    List (String × String)
  | [], idx => idx
  | (p, r) :: t, idx =>
      rebuild_hash_aux t
        (match r.content_hash with
         | some h =>
             if h ≠ "" ∧ r.file_id ≠ "" then
               if (dget idx h).isNone then dset idx h p else idx
             else idx
         | none => idx)

/-- Embedding of `SyncMetadata._rebuild_hash_index` applied to a files map. -/
def rebuild_hash_index (files : List (String × FileRec)) : List (String × String) :=
  rebuild_hash_aux files []

/-- Embedding of `SyncMetadata.find_cloud_file_by_hash` (sync_metadata.py
350-386).  Returns the answer together with the possibly self-healed state:
a falsy hit (`if not hit`, i.e. an absent or empty-string index value) is an
immediate miss; a stale index hit falls back to a linear sweep that repairs
or evicts the index entry.  A falsy (`None` or empty) `exclude_path` means no
exclusion. -/
def find_cloud_file_by_hash (s : MetaState) (content_hash : String)
    (exclude_path : Option String) : Option String × MetaState :=
  if content_hash = "" then (none, s)
  else
    match dget s.hash_index content_hash with
    | none => (none, s)
    | some hit =>
      if hit = "" then (none, s)
      else
        let exclude :=
          match exclude_path with
          | some ep => if ep ≠ "" then some (normalize_path ep) else none
          | none => none
        if exclude = some hit then
          match s.files.find? (fun e =>
              e.1 != hit && e.2.content_hash == some content_hash &&
                e.2.file_id != "") with
          | some e => (some e.1, s)
          | none => (none, s)
        else
          let valid :=
            match dget s.files hit with
            | some info =>
                info.content_hash == some content_hash && info.file_id != ""
            | none => false
          if valid then (some hit, s)
          else
            match s.files.find? (fun e =>
                (match exclude with
                 | some ex => e.1 != ex
                 | none => true) &&
                  e.2.content_hash == some content_hash && e.2.file_id != "") with
            | some e =>
                (some e.1, ⟨s.files, s.directories, dset s.hash_index content_hash e.1⟩)
            | none =>
                (none, ⟨s.files, s.directories, ddel s.hash_index content_hash⟩)

/-! ### Store invariants -/

/-- Truthiness of a record as a reverse-index holder of hash `h`: present,
non-empty `file_id`, and stored hash equal to `h`. -/
def is_holder (files : List (String × FileRec)) (p : String) (h : String) : Bool :=
  match dget files p with
  | some r => r.file_id != "" && r.content_hash == some h
  | none => false

/-- Completeness of the reverse index: every record with a cloud id and a
content hash has some entry for that hash in the index (the entry itself may
be stale). -/
def idx_complete (s : MetaState) : Bool :=
  s.files.all (fun e =>
    e.2.file_id == "" ||
      match e.2.content_hash with
      | some h => (dget s.hash_index h).isSome
      | none => true)

/-- Well-formedness: file keys are unique (Python dict keys are). -/
@[reducible] def files_nodup (s : MetaState) : Prop := (dkeys s.files).Nodup

/-- Well-formedness: every file key and every reverse-index value is a
non-empty string.  This holds for every store the running system builds
(relative paths are never empty), and it is what makes an index hit truthy
for the `if not hit` bail-out of `find_cloud_file_by_hash`. -/
def paths_nonempty (s : MetaState) : Bool :=
  s.files.all (fun e => e.1 != "") && s.hash_index.all (fun e => e.2 != "")

/-- The invariant claim C3 words: for every record with non-empty file id and
hash `h`, the index is either empty for `h` or points at a path whose record
stores the same hash `h`. -/
def claimed_hash_invariant (s : MetaState) : Bool :=
  s.files.all (fun e =>
    e.2.file_id == "" ||
      match e.2.content_hash with
      | some h =>
          match dget s.hash_index h with
          | none => true
          | some q =>
              match dget s.files q with
              | some r2 => r2.content_hash == some h
              | none => false
      | none => true)

/-- States reachable from the empty store by the three mutating operations
named in claim C3, with `set_file_info` restricted to non-empty paths (every
caller passes a real relative path; an empty path would plant an empty-string
key whose index entry Python treats as falsy). -/
inductive ReachableMeta : MetaState → Prop where
  | empty : ReachableMeta empty_meta
  | set (s : MetaState) (local_path file_id : String) (cloud_mtime local_mtime : Int)
      (parent_id : Option String) (domain : Option Int)
      (content_hash : Option String) (create_time : Option Int)
      (hpath : local_path ≠ "") :
      ReachableMeta s →
      ReachableMeta (set_file_info s local_path file_id cloud_mtime local_mtime
        parent_id domain content_hash create_time)
  | update (s : MetaState) (local_path content_hash : String) :
      ReachableMeta s →
      ReachableMeta (update_content_hash s local_path content_hash)
  | remove (s : MetaState) (local_path : String) :
      ReachableMeta s →
      ReachableMeta (remove_file s local_path)


theorem mem_dset_cases_nodup {β : Type} {m : List (String × β)} {k : String}
    {v : β} {e : String × β} (hnd : (dkeys m).Nodup) (h : e ∈ dset m k v) :
    e = (k, v) ∨ (e ∈ m ∧ e.1 ≠ k) := by
  induction m with
  | nil =>
      simp only [dset] at h
      rcases List.mem_cons.mp h with h1 | h1
      · exact Or.inl h1
      · cases h1
  | cons e0 t ih =>
      obtain ⟨k0, v0⟩ := e0
      rw [show dkeys ((k0, v0) :: t) = k0 :: dkeys t from rfl, List.nodup_cons] at hnd
      simp only [dset] at h
      by_cases h0 : k0 = k
      · subst h0
        rw [if_pos rfl] at h
        rcases List.mem_cons.mp h with h1 | h1
        · exact Or.inl h1
        · refine Or.inr ⟨List.mem_cons_of_mem _ h1, ?_⟩
          intro hek
          exact hnd.1 (hek ▸ List.mem_map.mpr ⟨e, h1, rfl⟩)
      · rw [if_neg h0] at h
        rcases List.mem_cons.mp h with h1 | h1
        · subst h1
          exact Or.inr ⟨List.mem_cons_self _ _, h0⟩
        · rcases ih hnd.2 h1 with h2 | h2
          · exact Or.inl h2
          · exact Or.inr ⟨List.mem_cons_of_mem _ h2.1, h2.2⟩

theorem idx_complete_iff (s : MetaState) :
    idx_complete s = true ↔
      ∀ e ∈ s.files, e.2.file_id ≠ "" →
        ∀ hh : String, e.2.content_hash = some hh →
          (dget s.hash_index hh).isSome = true := by
  simp only [idx_complete, List.all_eq_true]
  constructor
  · intro H e he hfid hh hch
    have h1 := H e he
    rw [hch] at h1
    rcases Bool.or_eq_true_iff.mp h1 with h2 | h2
    · exact absurd (by simpa using h2) hfid
    · exact h2
  · intro H e he
    by_cases hfid : e.2.file_id = ""
    · simp [hfid]
    · rcases hch : e.2.content_hash with _ | hh
      · simp [hch]
      · simp only [Bool.or_eq_true]
        exact Or.inr (H e he hfid hh hch)

theorem files_nodup_set (s : MetaState) (local_path file_id : String)
    (cloud_mtime local_mtime : Int) (parent_id : Option String)
    (domain : Option Int) (content_hash : Option String) (create_time : Option Int)
    (hnd : files_nodup s) :
    files_nodup (set_file_info s local_path file_id cloud_mtime local_mtime
      parent_id domain content_hash create_time) := by
  simp only [set_file_info, files_nodup]
  exact nodup_dkeys_dset _ _ hnd

theorem files_nodup_update (s : MetaState) (local_path content_hash : String)
    (hnd : files_nodup s) :
    files_nodup (update_content_hash s local_path content_hash) := by
  simp only [update_content_hash]
  rcases hdg : dget s.files (normalize_path local_path) with _ | r
  · exact hnd
  · exact nodup_dkeys_dset _ _ hnd

theorem files_nodup_remove (s : MetaState) (local_path : String)
    (hnd : files_nodup s) : files_nodup (remove_file s local_path) := by
  simp only [remove_file]
  rcases hdg : dget s.files (normalize_path local_path) with _ | r
  · exact hnd
  · exact nodup_dkeys_ddel _ hnd

theorem normalize_path_ne_empty (p : String) (hp : p ≠ "") :
    normalize_path p ≠ "" := by
  intro hcontra
  apply hp
  apply String.ext
  have h1 : (p.data.map
      (fun c => if c = Char.ofNat 92 then Char.ofNat 47 else c)) = [] := by
    have h2 := congrArg String.data hcontra
    simpa [normalize_path] using h2
  exact List.map_eq_nil_iff.mp h1

theorem dget_empty_key_none {β : Type} (m : List (String × β))
    (hk : m.all (fun e => e.1 != "") = true) : dget m "" = none := by
  induction m with
  | nil => rfl
  | cons e t ih =>
      obtain ⟨k0, v0⟩ := e
      have h0 : k0 ≠ "" := by
        have := List.all_eq_true.mp hk (k0, v0) (List.mem_cons_self _ _)
        simpa using this
      simp only [dget, if_neg h0]
      apply ih
      rw [List.all_eq_true]
      intro e2 he2
      exact List.all_eq_true.mp hk e2 (List.mem_cons_of_mem _ he2)

theorem paths_nonempty_set (s : MetaState) (local_path file_id : String)
    (cloud_mtime local_mtime : Int) (parent_id : Option String)
    (domain : Option Int) (content_hash : Option String) (create_time : Option Int)
    (hpath : local_path ≠ "") (hpn : paths_nonempty s = true) :
    paths_nonempty (set_file_info s local_path file_id cloud_mtime local_mtime
      parent_id domain content_hash create_time) = true := by
  simp only [paths_nonempty, Bool.and_eq_true, List.all_eq_true] at hpn
  obtain ⟨hf, hi⟩ := hpn
  have hnp : normalize_path local_path ≠ "" := normalize_path_ne_empty local_path hpath
  rcases content_hash with _ | ch0 <;>
    simp only [set_file_info, paths_nonempty, Bool.and_eq_true, List.all_eq_true] <;>
    constructor
  · intro e he
    rcases mem_dset he with he1 | he1
    · subst he1
      simpa using hnp
    · exact hf e he1
  · intro e he
    exact hi e he
  · intro e he
    rcases mem_dset he with he1 | he1
    · subst he1
      simpa using hnp
    · exact hf e he1
  · intro e he
    by_cases hfid : file_id = ""
    · simp only [hfid, ne_eq, not_true_eq_false, if_false] at he
      exact hi e he
    · simp only [ne_eq, hfid, not_false_eq_true, if_true] at he
      rcases mem_dset he with he1 | he1
      · subst he1
        simpa using hnp
      · exact hi e he1

theorem paths_nonempty_update (s : MetaState) (local_path content_hash : String)
    (hpn : paths_nonempty s = true) :
    paths_nonempty (update_content_hash s local_path content_hash) = true := by
  have hpn0 := hpn
  simp only [paths_nonempty, Bool.and_eq_true, List.all_eq_true] at hpn
  obtain ⟨hf, hi⟩ := hpn
  rcases hdg : dget s.files (normalize_path local_path) with _ | r
  · rw [show update_content_hash s local_path content_hash = s from by
      simp [update_content_hash, hdg]]
    exact hpn0
  · have hnp : normalize_path local_path ≠ "" := by
      intro h0
      rw [h0] at hdg
      rw [dget_empty_key_none s.files (List.all_eq_true.mpr hf)] at hdg
      cases hdg
    have hfiles2 : ∀ e ∈ dset s.files (normalize_path local_path)
        { r with content_hash := some content_hash }, (e.1 != "") = true := by
      intro e he
      rcases mem_dset he with he1 | he1
      · subst he1
        simpa using hnp
      · exact hf e he1
    simp only [update_content_hash, hdg, paths_nonempty, Bool.and_eq_true,
      List.all_eq_true]
    refine ⟨hfiles2, ?_⟩
    intro e he
    split at he
    · rcases mem_dset he with he1 | he1
      · subst he1
        simpa using hnp
      · split at he1
        · rename_i oh heqoh
          split at he1
          · split at he1
            · rename_i e2 heqf
              rcases mem_dset he1 with he2 | he2
              · subst he2
                have hmem2 := List.mem_of_find?_eq_some heqf
                simpa using hfiles2 e2 hmem2
              · exact hi _ (mem_ddel he2).1
            · exact hi _ (mem_ddel he1).1
          · exact hi _ he1
        · exact hi _ he1
    · split at he
      · rename_i oh heqoh
        split at he
        · split at he
          · rename_i e2 heqf
            rcases mem_dset he with he2 | he2
            · subst he2
              have hmem2 := List.mem_of_find?_eq_some heqf
              simpa using hfiles2 e2 hmem2
            · exact hi _ (mem_ddel he2).1
          · exact hi _ (mem_ddel he).1
        · exact hi _ he
      · exact hi _ he

theorem paths_nonempty_remove (s : MetaState) (local_path : String)
    (hpn : paths_nonempty s = true) :
    paths_nonempty (remove_file s local_path) = true := by
  have hpn0 := hpn
  simp only [paths_nonempty, Bool.and_eq_true, List.all_eq_true] at hpn
  obtain ⟨hf, hi⟩ := hpn
  rcases hdg : dget s.files (normalize_path local_path) with _ | r
  · rw [show remove_file s local_path = s from by simp [remove_file, hdg]]
    exact hpn0
  · have hfiles2 : ∀ e ∈ ddel s.files (normalize_path local_path),
        (e.1 != "") = true := by
      intro e he
      exact hf e (mem_ddel he).1
    simp only [remove_file, hdg, paths_nonempty, Bool.and_eq_true, List.all_eq_true]
    refine ⟨hfiles2, ?_⟩
    intro e he
    split at he
    · rename_i hh heqh
      split at he
      · split at he
        · rename_i e2 heqf
          rcases mem_dset he with he2 | he2
          · subst he2
            have hmem2 := List.mem_of_find?_eq_some heqf
            simpa using hfiles2 e2 hmem2
          · exact hi _ (mem_ddel he2).1
        · exact hi _ (mem_ddel he).1
      · exact hi _ he
    · exact hi _ he

theorem idx_complete_set (s : MetaState) (local_path file_id : String)
    (cloud_mtime local_mtime : Int) (parent_id : Option String)
    (domain : Option Int) (content_hash : Option String) (create_time : Option Int)
    (hc : idx_complete s = true) :
    idx_complete (set_file_info s local_path file_id cloud_mtime local_mtime
      parent_id domain content_hash create_time) = true := by
  rw [idx_complete_iff] at hc ⊢
  intro e he hfid hh hch
  simp only [set_file_info] at he hfid hch ⊢
  rcases content_hash with _ | ch0
  · rcases mem_dset he with he1 | he1
    · subst he1
      simp at hch
    · exact hc e he1 hfid hh hch
  · rcases mem_dset he with he1 | he1
    · subst he1
      simp only at hch hfid
      cases hch
      simp [hfid, dget_dset_self]
    · have h1 := hc e he1 hfid hh hch
      by_cases hf : file_id = ""
      · simp [hf, h1]
      · simp [hf, dget_isSome_dset _ _ _ _ h1]


theorem idx_complete_update (s : MetaState) (local_path content_hash : String)
    (hnd : files_nodup s) (hc : idx_complete s = true) :
    idx_complete (update_content_hash s local_path content_hash) = true := by
  rcases hdg : dget s.files (normalize_path local_path) with _ | r
  · rw [show update_content_hash s local_path content_hash = s from by
      simp [update_content_hash, hdg]]
    exact hc
  · rw [idx_complete_iff] at hc ⊢
    intro e he hfid hh hch
    simp only [update_content_hash, hdg] at he hfid hch ⊢
    rcases mem_dset_cases_nodup hnd he with he1 | ⟨he1, hene⟩
    · subst he1
      simp only at hch hfid
      obtain rfl : content_hash = hh := by simpa using hch
      split
      · simp [dget_dset_self]
      · rename_i hf2
        exact absurd (by simpa using hfid) hf2
    · have h1 := hc e he1 hfid hh hch
      have hgen : ∀ idx1 : List (String × String),
          (dget idx1 hh).isSome = true →
          (dget (if ({ r with content_hash := some content_hash} : FileRec).file_id ≠ ""
              then dset idx1 content_hash (normalize_path local_path)
              else idx1) hh).isSome = true := by
        intro idx1 hidx1
        split
        · exact dget_isSome_dset _ _ _ _ hidx1
        · exact hidx1
      apply hgen
      split
      · rename_i oh heqoh
        split
        · rename_i hcnd
          split
          · rename_i e2 heqf
            by_cases hohh : hh = oh
            · subst hohh
              simp [dget_dset_self]
            · rw [dget_dset_ne _ _ _ hohh, dget_ddel_ne _ _ hohh]
              exact h1
          · rename_i heqf
            by_cases hohh : hh = oh
            · subst hohh
              exfalso
              have hmem2 : e ∈ dset s.files (normalize_path local_path)
                  { r with content_hash := some content_hash } :=
                mem_dset_of_mem _ _ he1 hene
              have h3 := List.find?_eq_none.mp heqf e hmem2
              apply h3
              simp only [Bool.and_eq_true, bne_iff_ne, ne_eq, beq_iff_eq]
              exact ⟨⟨hene, hch⟩, hfid⟩
            · rw [dget_ddel_ne _ _ hohh]
              exact h1
        · exact h1
      · exact h1

theorem idx_complete_remove (s : MetaState) (local_path : String)
    (_hnd : files_nodup s) (hc : idx_complete s = true) :
    idx_complete (remove_file s local_path) = true := by
  rcases hdg : dget s.files (normalize_path local_path) with _ | r
  · rw [show remove_file s local_path = s from by simp [remove_file, hdg]]
    exact hc
  · rw [idx_complete_iff] at hc ⊢
    intro e he hfid hh hch
    simp only [remove_file, hdg] at he hfid hch ⊢
    obtain ⟨he1, hene⟩ := mem_ddel he
    have h1 := hc e he1 hfid hh hch
    split
    · rename_i oh heqoh
      split
      · rename_i hcnd
        split
        · rename_i e2 heqf
          by_cases hohh : hh = oh
          · subst hohh
            simp [dget_dset_self]
          · rw [dget_dset_ne _ _ _ hohh, dget_ddel_ne _ _ hohh]
            exact h1
        · rename_i heqf
          by_cases hohh : hh = oh
          · subst hohh
            exfalso
            have hmem2 : e ∈ ddel s.files (normalize_path local_path) :=
              mem_ddel_of_mem he1 hene
            have h3 := List.find?_eq_none.mp heqf e hmem2
            apply h3
            simp only [Bool.and_eq_true, bne_iff_ne, ne_eq, beq_iff_eq]
            exact ⟨hch, hfid⟩
          · rw [dget_ddel_ne _ _ hohh]
            exact h1
      · exact h1
    · exact h1

/-- Every state reachable by the three mutating operations from the empty
store has unique file keys, a complete reverse index, and only non-empty
file paths (as map keys and as index values). -/
theorem reachable_meta_invariant (s : MetaState) (hs : ReachableMeta s) :
    files_nodup s ∧ idx_complete s = true ∧ paths_nonempty s = true := by
  induction hs with
  | empty => exact ⟨List.nodup_nil, rfl, rfl⟩
  | set s lp fid cm lm pid dom ch ct hpath hs ih =>
      exact ⟨files_nodup_set s lp fid cm lm pid dom ch ct ih.1,
        idx_complete_set s lp fid cm lm pid dom ch ct ih.2.1,
        paths_nonempty_set s lp fid cm lm pid dom ch ct hpath ih.2.2⟩
  | update s lp ch hs ih =>
      exact ⟨files_nodup_update s lp ch ih.1,
        idx_complete_update s lp ch ih.1 ih.2.1,
        paths_nonempty_update s lp ch ih.2.2⟩
  | remove s lp hs ih =>
      exact ⟨files_nodup_remove s lp ih.1,
        idx_complete_remove s lp ih.1 ih.2.1,
        paths_nonempty_remove s lp ih.2.2⟩


theorem find_files_unchanged (s : MetaState) (h : String) (exq : Option String) :
    ((find_cloud_file_by_hash s h exq).2).files = s.files ∧
      ((find_cloud_file_by_hash s h exq).2).directories = s.directories := by
  dsimp only [find_cloud_file_by_hash]
  repeat first
  | exact ⟨rfl, rfl⟩
  | split

/-- Under a complete index, a lookup with no exclusion finds some holder of
the hash (the hit may be stale, in which case the linear sweep self-heals). -/
theorem find_hash_spec_no_exclude (s : MetaState) (h : String)
    (hnd : files_nodup s) (hc : idx_complete s = true)
    (hvals : s.hash_index.all (fun e => e.2 != "") = true) (hh : h ≠ "")
    (p : String) (r : FileRec) (hp : dget s.files p = some r)
    (hfid : r.file_id ≠ "") (hch : r.content_hash = some h) :
    ∃ q r2, (find_cloud_file_by_hash s h none).1 = some q ∧
      dget s.files q = some r2 ∧ r2.file_id ≠ "" ∧ r2.content_hash = some h := by
  have hidx := (idx_complete_iff s).mp hc (p, r) (dget_mem hp) hfid h hch
  rcases hhit : dget s.hash_index h with _ | hit
  · rw [hhit] at hidx
    simp at hidx
  · have hhitne : hit ≠ "" := by
      have h2 := List.all_eq_true.mp hvals (h, hit) (dget_mem hhit)
      simpa using h2
    simp only [find_cloud_file_by_hash, hh, if_false, hhit]
    rw [if_neg hhitne]
    split
    · rename_i hex
      simp at hex
    · split
      · rename_i hvalid
        rcases hv : dget s.files hit with _ | info
        · rw [hv] at hvalid
          simp at hvalid
        · rw [hv] at hvalid
          refine ⟨hit, info, rfl, hv, ?_, ?_⟩
          · have := Bool.and_elim_right hvalid
            simpa using this
          · have := Bool.and_elim_left hvalid
            simpa using this
      · split
        · rename_i e2 heqf
          have hmem := List.mem_of_find?_eq_some heqf
          have hpred := List.find?_some heqf
          simp only [Bool.and_eq_true, beq_iff_eq, bne_iff_ne, ne_eq] at hpred
          refine ⟨e2.1, e2.2, rfl, ?_, ?_, ?_⟩
          · exact mem_dget_of_nodup hnd (by simpa using hmem)
          · simpa using hpred.2
          · exact hpred.1.2
        · rename_i heqf
          exfalso
          have h3 := List.find?_eq_none.mp heqf (p, r) (dget_mem hp)
          apply h3
          simp only [Bool.and_eq_true, beq_iff_eq, bne_iff_ne, ne_eq]
          exact ⟨⟨trivial, hch⟩, hfid⟩

/-- Under a complete index, a lookup excluding a truthy path finds some holder
of the hash at a different path, provided such a holder exists. -/
theorem find_hash_spec_exclude (s : MetaState) (h : String) (ex : String)
    (hexne : ex ≠ "") (hnd : files_nodup s) (hc : idx_complete s = true)
    (hvals : s.hash_index.all (fun e => e.2 != "") = true)
    (hh : h ≠ "") (p : String) (r : FileRec) (hp : dget s.files p = some r)
    (hfid : r.file_id ≠ "") (hch : r.content_hash = some h)
    (hpne : p ≠ normalize_path ex) :
    ∃ q r2, (find_cloud_file_by_hash s h (some ex)).1 = some q ∧
      dget s.files q = some r2 ∧ r2.file_id ≠ "" ∧ r2.content_hash = some h ∧
      q ≠ normalize_path ex := by
  have hidx := (idx_complete_iff s).mp hc (p, r) (dget_mem hp) hfid h hch
  rcases hhit : dget s.hash_index h with _ | hit
  · rw [hhit] at hidx
    simp at hidx
  · have hhitne : hit ≠ "" := by
      have h2 := List.all_eq_true.mp hvals (h, hit) (dget_mem hhit)
      simpa using h2
    simp only [find_cloud_file_by_hash, hh, if_false, hhit, if_pos hexne]
    rw [if_neg hhitne]
    by_cases hxh : normalize_path ex = hit
    · rw [if_pos (congrArg some hxh)]
      split
      · rename_i e2 heqf
        have hmem := List.mem_of_find?_eq_some heqf
        have hpred := List.find?_some heqf
        simp only [Bool.and_eq_true, beq_iff_eq, bne_iff_ne, ne_eq] at hpred
        refine ⟨e2.1, e2.2, rfl, ?_, ?_, ?_, ?_⟩
        · exact mem_dget_of_nodup hnd (by simpa using hmem)
        · simpa using hpred.2
        · exact hpred.1.2
        · rw [hxh]
          exact hpred.1.1
      · rename_i heqf
        exfalso
        have h3 := List.find?_eq_none.mp heqf (p, r) (dget_mem hp)
        apply h3
        simp only [Bool.and_eq_true, beq_iff_eq, bne_iff_ne, ne_eq]
        refine ⟨⟨?_, hch⟩, hfid⟩
        rw [← hxh]
        exact hpne
    · rw [if_neg (fun hcontra => hxh (Option.some.inj hcontra))]
      rcases hv : dget s.files hit with _ | info
      · simp only [hv]
        rw [if_neg (by simp)]
        split
        · rename_i e2 heqf
          have hmem := List.mem_of_find?_eq_some heqf
          have hpred := List.find?_some heqf
          simp only [Bool.and_eq_true, beq_iff_eq, bne_iff_ne, ne_eq] at hpred
          refine ⟨e2.1, e2.2, rfl, ?_, ?_, ?_, ?_⟩
          · exact mem_dget_of_nodup hnd (by simpa using hmem)
          · simpa using hpred.2
          · exact hpred.1.2
          · exact hpred.1.1
        · rename_i heqf
          exfalso
          have h3 := List.find?_eq_none.mp heqf (p, r) (dget_mem hp)
          apply h3
          simp only [Bool.and_eq_true, beq_iff_eq, bne_iff_ne, ne_eq]
          exact ⟨⟨hpne, hch⟩, hfid⟩
      · simp only [hv]
        by_cases hvb : (info.content_hash == some h && info.file_id != "") = true
        · rw [if_pos hvb]
          refine ⟨hit, info, rfl, hv, ?_, ?_, fun hq => hxh hq.symm⟩
          · have := Bool.and_elim_right hvb
            simpa using this
          · have := Bool.and_elim_left hvb
            simpa using this
        · rw [if_neg hvb]
          split
          · rename_i e2 heqf
            have hmem := List.mem_of_find?_eq_some heqf
            have hpred := List.find?_some heqf
            simp only [Bool.and_eq_true, beq_iff_eq, bne_iff_ne, ne_eq] at hpred
            refine ⟨e2.1, e2.2, rfl, ?_, ?_, ?_, ?_⟩
            · exact mem_dget_of_nodup hnd (by simpa using hmem)
            · simpa using hpred.2
            · exact hpred.1.2
            · exact hpred.1.1
          · rename_i heqf
            exfalso
            have h3 := List.find?_eq_none.mp heqf (p, r) (dget_mem hp)
            apply h3
            simp only [Bool.and_eq_true, beq_iff_eq, bne_iff_ne, ne_eq]
            exact ⟨⟨hpne, hch⟩, hfid⟩

/-- Concrete three-step trace refuting the claimed C3 invariant: record `a`
gains hash H with cloud id `id1`; record `b` gains hash H with cloud id `id2`,
stealing the index pointer; then record `b` is overwritten by `set_file_info`
with no content hash, leaving the pointer for H aimed at a record without H
while holder `a` still exists. -/
def c3_cex_state : MetaState :=
  set_file_info
    (set_file_info
      (set_file_info empty_meta "a" "id1" 0 0 none none (some "H") none)
      "b" "id2" 0 0 none none (some "H") none)
    "b" "id2" 0 0 none none none none

/-- C3 counterexample: the state above is reachable by store operations, yet
the claimed invariant (index empty for `h` or pointing at a record with the
same hash) is false: the record at `a` holds hash H with a non-empty file id,
the index maps H to `b`, and the record at `b` has no content hash. -/
theorem c3_claimed_invariant_counterexample :
    ReachableMeta c3_cex_state ∧
      claimed_hash_invariant c3_cex_state = false ∧
      is_holder c3_cex_state.files "a" "H" = true ∧
      dget c3_cex_state.hash_index "H" = some "b" ∧
      (dget c3_cex_state.files "b").map FileRec.content_hash = some none := by
  refine ⟨?_, by decide, by decide, by decide, by decide⟩
  exact ReachableMeta.set _ _ _ _ _ _ _ _ _ (by decide)
    (ReachableMeta.set _ _ _ _ _ _ _ _ _ (by decide)
      (ReachableMeta.set _ _ _ _ _ _ _ _ _ (by decide) ReachableMeta.empty))

/-- C3 amended: after any sequence of `set_file_info`, `update_content_hash`
and `remove_file` from the empty store, for every nonempty hash `h` held by
some record with non-empty `file_id`, the reverse index holds an entry for `h`
(possibly stale), and `find_cloud_file_by_hash` answers with some path whose
record has hash `h` and a non-empty `file_id`; the raw index entry itself may
point at a path whose record no longer stores `h`. -/
theorem c3_amended_hash_index_self_heals (s : MetaState) (hs : ReachableMeta s)
    (h : String) (hh : h ≠ "") (p : String) (hp : is_holder s.files p h = true) :
    (dget s.hash_index h).isSome = true ∧
      ∃ q r2, (find_cloud_file_by_hash s h none).1 = some q ∧
        dget s.files q = some r2 ∧ r2.file_id ≠ "" ∧ r2.content_hash = some h := by
  obtain ⟨hnd, hc, hpn⟩ := reachable_meta_invariant s hs
  simp only [paths_nonempty, Bool.and_eq_true] at hpn
  have hvals : s.hash_index.all (fun e => e.2 != "") = true := hpn.2
  rcases hpr : dget s.files p with _ | r
  · rw [is_holder, hpr] at hp
    simp at hp
  · rw [is_holder, hpr] at hp
    simp only [Bool.and_eq_true, bne_iff_ne, ne_eq, beq_iff_eq] at hp
    refine ⟨(idx_complete_iff s).mp hc (p, r) (dget_mem hpr) hp.1 h hp.2, ?_⟩
    exact find_hash_spec_no_exclude s h hnd hc hvals hh p r hpr hp.1 hp.2

/-- Concrete single-insert state used to instantiate the amended C3 theorem. -/
def c3_wit_state : MetaState :=
  set_file_info empty_meta "docs/x.md" "WEB1" 10 10 none none (some "H1") none

/-- Witness for the amended C3 theorem at a concrete reachable state. -/
theorem c3_amended_witness :
    (("H1" : String) ≠ "" ∧ is_holder c3_wit_state.files "docs/x.md" "H1" = true) ∧
      ((dget c3_wit_state.hash_index "H1").isSome = true ∧
        ∃ q r2, (find_cloud_file_by_hash c3_wit_state "H1" none).1 = some q ∧
          dget c3_wit_state.files q = some r2 ∧ r2.file_id ≠ "" ∧
          r2.content_hash = some "H1") :=
  ⟨⟨by decide, by decide⟩,
    c3_amended_hash_index_self_heals c3_wit_state
      (ReachableMeta.set _ _ _ _ _ _ _ _ _ (by decide) ReachableMeta.empty)
      "H1" (by decide) "docs/x.md" (by decide)⟩


/-! ### Upload gate of the sync orchestrator

Embedding of `SyncManager._do_upload` (sync.py 384-409) up to the content
dedup gate.  Whether the local file exists and the result of
`compute_content_hash` on it are inputs; everything past the gate (parent
directory resolution, the network push and the metadata update on success) is
represented by the `proceed_upload` outcome. -/

inductive UploadStep where
  | error_missing
  | skip_duplicate (existing : String)
  | proceed_upload
deriving DecidableEq, Repr

/-- Counters of `_empty_stats` (sync.py 516-517). -/
structure SyncStats where
  downloaded : Int
  uploaded : Int
  skipped : Int
  conflicts : Int
  errors : Int
  dedup_deleted : Int
deriving DecidableEq, Repr

def empty_stats : SyncStats := ⟨0, 0, 0, 0, 0, 0⟩

/-- The dedup gate of `_do_upload`: missing local file is an error; a truthy
content hash already held by another cloud-backed path short-circuits the
upload and counts it as skipped. -/
def do_upload_gate (s : MetaState) (stats : SyncStats) (relative_path : String)
    (local_exists : Bool) (content_hash : Option String) :
    UploadStep × MetaState × SyncStats :=
  if !local_exists then
    (UploadStep.error_missing, s, { stats with errors := stats.errors + 1 })
  else
    match content_hash with
    | some h =>
        if h ≠ "" then
          match find_cloud_file_by_hash s h (some relative_path) with
          | (some existing, s2) =>
              if existing ≠ "" then
                (UploadStep.skip_duplicate existing, s2,
                  { stats with skipped := stats.skipped + 1 })
              else (UploadStep.proceed_upload, s2, stats)
          | (none, s2) => (UploadStep.proceed_upload, s2, stats)
        else (UploadStep.proceed_upload, s, stats)
    | none => (UploadStep.proceed_upload, s, stats)

/-- C4: for an UPLOAD item whose local file exists and whose content hash is
computable, when a reachable store holds a different path with the same hash
and a non-empty cloud id, the gate skips the upload: no upload step is taken,
the skipped counter is incremented, and the files map (hence the item record)
is unchanged. -/
theorem c4_upload_short_circuit (s : MetaState) (hs : ReachableMeta s)
    (stats : SyncStats) (rel : String) (hrel : rel ≠ "")
    (h : String) (hh : h ≠ "") (p : String) (hpne : p ≠ normalize_path rel)
    (hp : is_holder s.files p h = true) :
    ∃ q, (do_upload_gate s stats rel true (some h)).1 = UploadStep.skip_duplicate q ∧
      is_holder s.files q h = true ∧ q ≠ normalize_path rel ∧
      ((do_upload_gate s stats rel true (some h)).2.1).files = s.files ∧
      (do_upload_gate s stats rel true (some h)).2.2 =
        { stats with skipped := stats.skipped + 1 } := by
  obtain ⟨hnd, hc, hpn⟩ := reachable_meta_invariant s hs
  simp only [paths_nonempty, Bool.and_eq_true] at hpn
  obtain ⟨hkeys, hvals⟩ := hpn
  have hempty : dget s.files "" = none := dget_empty_key_none s.files hkeys
  rcases hpr : dget s.files p with _ | r
  · rw [is_holder, hpr] at hp
    simp at hp
  · rw [is_holder, hpr] at hp
    simp only [Bool.and_eq_true, bne_iff_ne, ne_eq, beq_iff_eq] at hp
    obtain ⟨q, r2, hfind, hq, hqfid, hqch, hqne⟩ :=
      find_hash_spec_exclude s h rel hrel hnd hc hvals hh p r hpr hp.1 hp.2 hpne
    rcases hF : find_cloud_file_by_hash s h (some rel) with ⟨res, s2⟩
    rw [hF] at hfind
    simp only at hfind
    subst hfind
    have hqne2 : q ≠ "" := by
      intro hq0
      rw [hq0] at hq
      rw [hempty] at hq
      cases hq
    refine ⟨q, ?_, ?_, hqne, ?_, ?_⟩
    · simp [do_upload_gate, hF, hqne2, hh]
    · rw [is_holder, hq]
      simp [hqfid, hqch]
    · have hfu := find_files_unchanged s h (some rel)
      rw [hF] at hfu
      simp [do_upload_gate, hF, hqne2, hh]
      exact hfu.1
    · simp [do_upload_gate, hF, hqne2, hh]

/-- Concrete store with one cloud-backed holder of hash HASH1 under a path
different from the upload item, used to instantiate the C4 theorem. -/
def c4_wit_state : MetaState :=
  set_file_info empty_meta "old/a.md" "WEB1" 1 1 none none (some "HASH1") none

/-- Witness for the C4 theorem at a concrete store and item. -/
theorem c4_upload_short_circuit_witness :
    (ReachableMeta c4_wit_state ∧ ("new/a.md" : String) ≠ "" ∧
        ("HASH1" : String) ≠ "" ∧
        ("old/a.md" : String) ≠ normalize_path "new/a.md" ∧
        is_holder c4_wit_state.files "old/a.md" "HASH1" = true) ∧
      ∃ q, (do_upload_gate c4_wit_state empty_stats "new/a.md" true
            (some "HASH1")).1 = UploadStep.skip_duplicate q ∧
        is_holder c4_wit_state.files q "HASH1" = true ∧
        q ≠ normalize_path "new/a.md" ∧
        ((do_upload_gate c4_wit_state empty_stats "new/a.md" true
            (some "HASH1")).2.1).files = c4_wit_state.files ∧
        (do_upload_gate c4_wit_state empty_stats "new/a.md" true
            (some "HASH1")).2.2 =
          { empty_stats with skipped := empty_stats.skipped + 1 } :=
  ⟨⟨ReachableMeta.set _ _ _ _ _ _ _ _ _ (by decide) ReachableMeta.empty,
      by decide, by decide, by decide, by decide⟩,
    c4_upload_short_circuit c4_wit_state
      (ReachableMeta.set _ _ _ _ _ _ _ _ _ (by decide) ReachableMeta.empty)
      empty_stats "new/a.md" (by decide) "HASH1" (by decide) "old/a.md"
      (by decide) (by decide)⟩

/-- C10: `set_file_info` replaces the whole record for its path: whatever was
stored before, the new record consists exactly of the three required fields
from the call plus the supplied optional fields (`create_time` only when
positive); every omitted optional argument, in particular `content_hash`, is
absent afterwards.  The right-hand side does not depend on the prior state. -/
theorem c10_set_file_info_replaces_record (s : MetaState)
    (local_path file_id : String) (cloud_mtime local_mtime : Int)
    (parent_id : Option String) (domain : Option Int)
    (content_hash : Option String) (create_time : Option Int) :
    dget (set_file_info s local_path file_id cloud_mtime local_mtime parent_id
        domain content_hash create_time).files (normalize_path local_path) =
      some
        { file_id := file_id
          cloud_mtime := cloud_mtime
          local_mtime := local_mtime
          parent_id := parent_id
          domain := domain
          content_hash := content_hash
          create_time :=
            match create_time with
            | some t => if t > 0 then some t else none
            | none => none } := by
  simp only [set_file_info]
  exact dget_dset_self _ _ _


/-! ### Metadata persistence

Embedding of `SyncMetadata.load` (sync_metadata.py 37-53, plus the
`_rebuild_hash_index` call it ends with) at the JSON level, and of the
serialization `save` writes (sync_metadata.py 55-79; the temp-file/rename
mechanics are filesystem-level and outside this model).  `none` models a
missing file, unreadable bytes, or bytes that fail JSON decoding: all three
take the handled path that installs the empty store.  `some v` models
successfully decoded JSON `v`.  Python raises uncaught errors on decoded
values of the wrong shape: `"files" not in data` raises TypeError for
non-iterable top-level values, item assignment raises TypeError on strings
and arrays, and `_rebuild_hash_index` raises AttributeError when the files
value or a file record is not a dict. -/

inductive JVal where
  | null
  | bool (b : Bool)
  | num (n : Int)
  | str (sv : String)
  | arr (xs : List JVal)
  | obj (fields : List (String × JVal))

def JVal.isObj : JVal → Bool
  | JVal.obj _ => true
  | _ => false

def empty_data : JVal := JVal.obj [("files", JVal.obj []), ("directories", JVal.obj [])]

/-- Python truthiness of a decoded JSON value (`None`, `False`, `0`, `""`,
`[]` and `{}` are falsy). -/
def jval_truthy : JVal → Bool
  | JVal.null => false
  | JVal.bool b => b
  | JVal.num n => n != 0
  | JVal.str sv => sv != ""
  | JVal.arr xs => !xs.isEmpty
  | JVal.obj flds => !flds.isEmpty

/-- Whether a decoded JSON value is unhashable in Python (lists and dicts
are; `None`, booleans, numbers and strings are hashable). -/
def jval_unhashable : JVal → Bool
  | JVal.arr _ => true
  | JVal.obj _ => true
  | _ => false

/-- Whether `_rebuild_hash_index` raises on a dict-shaped file record
(sync_metadata.py 103-106): the record passes the `if h and
info.get("file_id")` truthiness test, and `h` is a list or dict, so the
`h not in self._hash_index` membership test raises TypeError (unhashable
type).  The unhashability test is listed first; conjunction order does not
change the Bool value. -/
def rebuild_entry_raises : JVal → Bool
  | JVal.obj flds =>
      jval_unhashable ((dget flds "content_hash").getD JVal.null) &&
        jval_truthy ((dget flds "content_hash").getD JVal.null) &&
        jval_truthy ((dget flds "file_id").getD JVal.null)
  | _ => false

/-- Embedding of `SyncMetadata.load` on the decoded content of the metadata
file.  The handled exceptions (`JSONDecodeError`, `IOError`) are the `none`
case; shapes on which the Python body raises an uncaught error map to
`Except.error` (the message labels the first kind of raise; when several
records are bad Python raises at the first bad one in dict order, but the
ok/error partition is the same). -/
def pyLoadData : Option JVal → Except String JVal
  | none => Except.ok empty_data
  | some v =>
      match v with
      | JVal.obj fields =>
          let d1 :=
            if (dget fields "files").isSome then fields
            else fields ++ [("files", JVal.obj [])]
          let d2 :=
            if (dget d1 "directories").isSome then d1
            else d1 ++ [("directories", JVal.obj [])]
          match dget d2 "files" with
          | some (JVal.obj fentries) =>
              if fentries.all (fun e => e.2.isObj) then
                if fentries.all (fun e => !(rebuild_entry_raises e.2)) then
                  Except.ok (JVal.obj d2)
                else Except.error "TypeError: unhashable type in hash index rebuild"
              else Except.error "AttributeError: file record is not a dict"
          | some _ => Except.error "AttributeError: files value is not a dict"
          | none => Except.error "unreachable: files key was just ensured"
      | JVal.str _ => Except.error "TypeError: str does not support item assignment"
      | JVal.arr _ => Except.error "TypeError: list indices must be integers"
      | JVal.num _ => Except.error "TypeError: argument of type int is not iterable"
      | JVal.bool _ => Except.error "TypeError: argument of type bool is not iterable"
      | JVal.null => Except.error "TypeError: argument of type NoneType is not iterable"

def is_err {α : Type} : Except String α → Bool
  | Except.error _ => true
  | Except.ok _ => false

/-- JSON encoding of a file record as `json.dump` writes it: the three
required fields, then the optional fields that are present. -/
def encode_file_rec (r : FileRec) : JVal :=
  JVal.obj
    ([("file_id", JVal.str r.file_id), ("cloud_mtime", JVal.num r.cloud_mtime),
      ("local_mtime", JVal.num r.local_mtime)] ++
      (match r.parent_id with
       | some v => [("parent_id", JVal.str v)]
       | none => []) ++
      (match r.domain with
       | some v => [("domain", JVal.num v)]
       | none => []) ++
      (match r.content_hash with
       | some v => [("content_hash", JVal.str v)]
       | none => []) ++
      (match r.create_time with
       | some v => [("create_time", JVal.num v)]
       | none => []))

def encode_dir_rec (r : DirRec) : JVal :=
  JVal.obj
    ([("dir_id", JVal.str r.dir_id)] ++
      (match r.parent_id with
       | some v => [("parent_id", JVal.str v)]
       | none => []))

/-- JSON value `save` serializes for a store state. -/
def save_data (s : MetaState) : JVal :=
  JVal.obj
    [("files", JVal.obj (s.files.map (fun e => (e.1, encode_file_rec e.2)))),
     ("directories", JVal.obj (s.directories.map (fun e => (e.1, encode_dir_rec e.2))))]

/-- C5 counterexample: the integer literal `42` is valid JSON but not a
well-formed serialization of the two maps; `load` on it raises an uncaught
TypeError instead of installing the empty store. -/
theorem c5_load_counterexample :
    (∃ msg, pyLoadData (some (JVal.num 42)) = Except.error msg) ∧
      is_err (pyLoadData (some (JVal.num 42))) = true :=
  ⟨⟨"TypeError: argument of type int is not iterable", rfl⟩, rfl⟩

theorem dget_append_left {β : Type} (l l2 : List (String × β)) (k : String)
    (x : β) (h : dget l k = some x) : dget (l ++ l2) k = some x := by
  induction l with
  | nil => cases h
  | cons e t ih =>
      obtain ⟨k0, v0⟩ := e
      by_cases hk : k0 = k
      · rw [dget, if_pos hk] at h
        rw [List.cons_append, dget, if_pos hk]
        exact h
      · rw [dget, if_neg hk] at h
        rw [List.cons_append, dget, if_neg hk]
        exact ih h

/-- C5 amended: unreadable bytes or bytes that fail JSON decoding install the
empty store (with a logged warning) and raise nothing, but content that
decodes to JSON of the wrong shape raises an uncaught error to the caller:
a non-object top-level value, an object whose `files` value is not an
object, and an object whose `files` map contains a non-object record all
produce an error. -/
theorem c5_load_amended :
    pyLoadData none = Except.ok empty_data ∧
      (∀ v : JVal, v.isObj = false →
        ∃ msg, pyLoadData (some v) = Except.error msg) ∧
      (∀ fields : List (String × JVal), ∀ fv : JVal,
        dget fields "files" = some fv → fv.isObj = false →
        ∃ msg, pyLoadData (some (JVal.obj fields)) = Except.error msg) ∧
      (∀ fields : List (String × JVal), ∀ fentries : List (String × JVal),
        dget fields "files" = some (JVal.obj fentries) →
        (∃ e ∈ fentries, e.2.isObj = false) →
        ∃ msg, pyLoadData (some (JVal.obj fields)) = Except.error msg) := by
  refine ⟨rfl, ?_, ?_, ?_⟩
  · intro v hv
    cases v with
    | null => exact ⟨_, rfl⟩
    | bool b => exact ⟨_, rfl⟩
    | num n => exact ⟨_, rfl⟩
    | str sv => exact ⟨_, rfl⟩
    | arr xs => exact ⟨_, rfl⟩
    | obj fields => cases hv
  · intro fields fv hget hnobj
    have hd1 : (if (dget fields "files").isSome then fields
        else fields ++ [("files", JVal.obj [])]) = fields := by
      rw [hget]
      rfl
    simp only [pyLoadData]
    rw [hd1]
    by_cases hdir : (dget fields "directories").isSome = true
    · rw [if_pos hdir, hget]
      rcases fv with _ | b | n | sv | xs | flds
      · exact ⟨_, rfl⟩
      · exact ⟨_, rfl⟩
      · exact ⟨_, rfl⟩
      · exact ⟨_, rfl⟩
      · exact ⟨_, rfl⟩
      · exact absurd hnobj (by simp [JVal.isObj])
    · rw [if_neg hdir, dget_append_left fields _ "files" fv hget]
      rcases fv with _ | b | n | sv | xs | flds
      · exact ⟨_, rfl⟩
      · exact ⟨_, rfl⟩
      · exact ⟨_, rfl⟩
      · exact ⟨_, rfl⟩
      · exact ⟨_, rfl⟩
      · exact absurd hnobj (by simp [JVal.isObj])
  · intro fields fentries hget hbad
    have hne : ¬ (fentries.all (fun e => e.2.isObj) = true) := by
      intro hcontra
      rcases hbad with ⟨e, hmem, hnb⟩
      have h2 := List.all_eq_true.mp hcontra e hmem
      simp only at h2
      rw [hnb] at h2
      exact absurd h2 (by decide)
    have hd1 : (if (dget fields "files").isSome then fields
        else fields ++ [("files", JVal.obj [])]) = fields := by
      rw [hget]
      rfl
    have hallf : (fentries.all fun e => e.2.isObj) = false := Bool.eq_false_iff.mpr hne
    simp only [pyLoadData]
    rw [hd1]
    by_cases hdir : (dget fields "directories").isSome = true
    · rw [if_pos hdir, hget]
      exact ⟨"AttributeError: file record is not a dict", by simp [hallf]⟩
    · rw [if_neg hdir, dget_append_left fields _ "files" (JVal.obj fentries) hget]
      exact ⟨"AttributeError: file record is not a dict", by simp [hallf]⟩

/-- Witness for the amended C5 theorem: the non-object value `[]` (a JSON
array), an object whose `files` value is the number `0`, and an object whose
`files` map holds the non-object record `null`. -/
theorem c5_load_amended_witness :
    ((JVal.arr []).isObj = false ∧
        ∃ msg, pyLoadData (some (JVal.arr [])) = Except.error msg) ∧
      (dget [("files", JVal.num 0)] "files" = some (JVal.num 0) ∧
        (JVal.num 0).isObj = false ∧
        ∃ msg, pyLoadData (some (JVal.obj [("files", JVal.num 0)])) =
          Except.error msg) ∧
      (dget [("files", JVal.obj [("a", JVal.null)])] "files" =
          some (JVal.obj [("a", JVal.null)]) ∧
        (∃ e ∈ [(("a" : String), JVal.null)], e.2.isObj = false) ∧
        ∃ msg, pyLoadData
          (some (JVal.obj [("files", JVal.obj [("a", JVal.null)])])) =
            Except.error msg) :=
  ⟨⟨rfl, c5_load_amended.2.1 (JVal.arr []) rfl⟩,
    ⟨rfl, rfl, c5_load_amended.2.2.1 [("files", JVal.num 0)] (JVal.num 0) rfl rfl⟩,
    ⟨rfl, ⟨("a", JVal.null), by simp, rfl⟩,
      c5_load_amended.2.2.2 [("files", JVal.obj [("a", JVal.null)])]
        [("a", JVal.null)] rfl ⟨("a", JVal.null), by simp, rfl⟩⟩⟩

theorem rebuild_aux_mono (l : List (String × FileRec))
    (idx : List (String × String)) (h : String)
    (hs : (dget idx h).isSome = true) :
    (dget (rebuild_hash_aux l idx) h).isSome = true := by
  induction l generalizing idx with
  | nil => exact hs
  | cons e t ih =>
      obtain ⟨p, r⟩ := e
      simp only [rebuild_hash_aux]
      apply ih
      rcases hch : r.content_hash with _ | hh
      · simp only [hch]
        exact hs
      · simp only [hch]
        by_cases hcnd : hh ≠ "" ∧ r.file_id ≠ ""
        · rw [if_pos hcnd]
          by_cases hnone : (dget idx hh).isNone = true
          · rw [if_pos hnone]
            exact dget_isSome_dset _ _ _ _ hs
          · rw [if_neg hnone]
            exact hs
        · rw [if_neg hcnd]
          exact hs

theorem rebuild_aux_covers (l : List (String × FileRec)) (p : String)
    (r : FileRec) (h : String) (hfid : r.file_id ≠ "")
    (hch : r.content_hash = some h) (hh : h ≠ "") :
    ∀ idx : List (String × String), (p, r) ∈ l →
      (dget (rebuild_hash_aux l idx) h).isSome = true := by
  induction l with
  | nil =>
      intro idx hmem
      cases hmem
  | cons e t ih =>
      intro idx hmem
      obtain ⟨p0, r0⟩ := e
      rcases List.mem_cons.mp hmem with h1 | h1
      · have hp0 : p0 = p := congrArg Prod.fst h1.symm
        have hr0 : r0 = r := congrArg Prod.snd h1.symm
        subst hp0
        subst hr0
        simp only [rebuild_hash_aux, hch]
        rw [if_pos ⟨hh, hfid⟩]
        by_cases hnone : (dget idx h).isNone = true
        · rw [if_pos hnone]
          exact rebuild_aux_mono _ _ _ (by simp [dget_dset_self])
        · rw [if_neg hnone]
          exact rebuild_aux_mono _ _ _
            (Option.isSome_iff_ne_none.mpr (by simpa using hnone))
      · exact ih _ h1

theorem rebuild_aux_vals_ne (l : List (String × FileRec))
    (hk : ∀ e ∈ l, (e.1 != "") = true) :
    ∀ idx : List (String × String), (∀ e ∈ idx, (e.2 != "") = true) →
      ∀ e ∈ rebuild_hash_aux l idx, (e.2 != "") = true := by
  induction l with
  | nil =>
      intro idx hidx e he
      exact hidx e he
  | cons e0 t ih =>
      obtain ⟨p, r⟩ := e0
      intro idx hidx e he
      have hp : (p != "") = true := hk (p, r) (List.mem_cons_self _ _)
      simp only [rebuild_hash_aux] at he
      refine ih (fun e2 he2 => hk e2 (List.mem_cons_of_mem _ he2)) _ ?_ e he
      intro e2 he2
      rcases hch : r.content_hash with _ | hh
      · rw [hch] at he2
        exact hidx e2 he2
      · rw [hch] at he2
        have he3 : e2 ∈ (if hh ≠ "" ∧ r.file_id ≠ "" then
            (if (dget idx hh).isNone then dset idx hh p else idx)
            else idx) := he2
        split at he3
        · split at he3
          · rcases mem_dset he3 with he4 | he4
            · subst he4
              exact hp
            · exact hidx e2 he4
          · exact hidx e2 he3
        · exact hidx e2 he3

theorem rebuild_entry_raises_encode (r : FileRec) :
    rebuild_entry_raises (encode_file_rec r) = false := by
  rcases hp : r.parent_id with _ | pv <;>
    rcases hd : r.domain with _ | dv <;>
    rcases hc2 : r.content_hash with _ | cv <;>
    rcases hct : r.create_time with _ | tv <;>
    simp [encode_file_rec, rebuild_entry_raises, dget, hp, hd, hc2, hct,
      jval_unhashable]

/-- The index rebuilt from a files map with no empty stored hash is complete. -/
theorem idx_complete_rebuild (files : List (String × FileRec))
    (dirs : List (String × DirRec))
    (hclean : ∀ e ∈ files, e.2.content_hash ≠ some "") :
    idx_complete ⟨files, dirs, rebuild_hash_index files⟩ = true := by
  rw [idx_complete_iff]
  intro e he hfid hh hch
  have hhne : hh ≠ "" := by
    intro h0
    exact hclean e he (h0 ▸ hch)
  exact rebuild_aux_covers files e.1 e.2 hh hfid hch hhne [] (by simpa using he)

/-- C9: serializing a store and loading the serialization on a fresh instance
succeeds, returns exactly the serialized data (so `get_all_files` equals the
pre-save snapshot), and the rebuilt reverse index answers
`find_cloud_file_by_hash` consistently: every nonempty hash held by a record
with non-empty file id resolves to some path whose record has that hash and a
non-empty file id. -/
theorem c9_metadata_round_trip (s : MetaState) (hnd : files_nodup s)
    (hkeys : s.files.all (fun e => e.1 != "") = true)
    (hclean : ∀ e ∈ s.files, e.2.content_hash ≠ some "") :
    pyLoadData (some (save_data s)) = Except.ok (save_data s) ∧
      ∀ h : String, h ≠ "" → ∀ p, is_holder s.files p h = true →
        ∃ q r2,
          (find_cloud_file_by_hash
              ⟨s.files, s.directories, rebuild_hash_index s.files⟩ h none).1 = some q ∧
            dget s.files q = some r2 ∧ r2.file_id ≠ "" ∧ r2.content_hash = some h := by
  constructor
  · have hall : (s.files.map (fun e => (e.1, encode_file_rec e.2))).all
        (fun e => e.2.isObj) = true := by
      rw [List.all_eq_true]
      intro e he
      rcases List.mem_map.mp he with ⟨e0, he0, rfl⟩
      rfl
    have hall2 : (s.files.map (fun e => (e.1, encode_file_rec e.2))).all
        (fun e => !(rebuild_entry_raises e.2)) = true := by
      rw [List.all_eq_true]
      intro e he
      rcases List.mem_map.mp he with ⟨e0, he0, rfl⟩
      simp [rebuild_entry_raises_encode]
    simp [pyLoadData, save_data, dget, hall, hall2]
  · have hvals : (rebuild_hash_index s.files).all (fun e => e.2 != "") = true := by
      rw [List.all_eq_true]
      intro e he
      exact rebuild_aux_vals_ne s.files (List.all_eq_true.mp hkeys) []
        (fun e2 he2 => absurd he2 (List.not_mem_nil _)) e he
    intro h hh p hp
    rcases hpr : dget s.files p with _ | r
    · rw [is_holder, hpr] at hp
      simp at hp
    · rw [is_holder, hpr] at hp
      simp only [Bool.and_eq_true, bne_iff_ne, ne_eq, beq_iff_eq] at hp
      exact find_hash_spec_no_exclude
        ⟨s.files, s.directories, rebuild_hash_index s.files⟩ h hnd
        (idx_complete_rebuild s.files s.directories hclean) hvals hh p r hpr
        hp.1 hp.2

/-- Concrete two-record store used to instantiate the C9 theorem. -/
def c9_wit_state : MetaState :=
  set_file_info
    (set_file_info empty_meta "n/a.md" "WEB1" 5 5 none none (some "HX") none)
    "n/b.md" "WEB2" 6 6 none (some 1) none none

/-- Witness for the C9 round-trip theorem at a concrete store. -/
theorem c9_metadata_round_trip_witness :
    (files_nodup c9_wit_state ∧
        c9_wit_state.files.all (fun e => e.1 != "") = true ∧
        (∀ e ∈ c9_wit_state.files, e.2.content_hash ≠ some "") ∧
        ("HX" : String) ≠ "" ∧ is_holder c9_wit_state.files "n/a.md" "HX" = true) ∧
      (pyLoadData (some (save_data c9_wit_state)) =
          Except.ok (save_data c9_wit_state) ∧
        ∃ q r2,
          (find_cloud_file_by_hash
              ⟨c9_wit_state.files, c9_wit_state.directories,
                rebuild_hash_index c9_wit_state.files⟩ "HX" none).1 = some q ∧
            dget c9_wit_state.files q = some r2 ∧ r2.file_id ≠ "" ∧
            r2.content_hash = some "HX") := by
  have hmain := c9_metadata_round_trip c9_wit_state (by decide) (by decide)
    (by decide)
  exact ⟨⟨by decide, by decide, by decide, by decide, by decide⟩,
    hmain.1, hmain.2 "HX" (by decide) "n/a.md" (by decide)⟩


/-! ### Local scanner and dedup index construction

Embedding of `SyncManager._scan_local` (sync.py 219-238) and of the hash side
of `_build_indexes` (dedup.py 71-142).  The filesystem walk is modelled as an
abstract list of files in walk order; a file is pruned when any of its
directory components starts with a dot (the `dirnames` pruning).  Files listed
here are readable, so `os.path.getmtime` and the content read never fail for
them; `safe_long_path` is the identity outside Windows.  The reference side of
`_build_indexes` (dedup.py 117-137) only parses Markdown bodies and fills the
local `referenced` set without writing anything; the set is supplied as an
input where needed. -/

structure FsFile where
  dirs : List String
  name : String
  content : List Nat
  mtime : Int
deriving DecidableEq, Repr

def str_join_aux : List String → String
  | [] => ""
  | [x] => x
  | x :: y :: t => x ++ "/" ++ str_join_aux (y :: t)

/-- Relative path of a walked file, `"/"`-joined as the scanners produce it. -/
def fs_rel (f : FsFile) : String := str_join_aux (f.dirs ++ [f.name])

def str_starts_with_dot (sv : String) : Bool :=
  match sv.data with
  | [] => false
  | c :: _ => c = Char.ofNat 46

/-- Dot-directory pruning of `os.walk` (`dirs[:] = [d for d in dirs ...]`). -/
def dir_pruned (f : FsFile) : Bool := f.dirs.any (fun d => str_starts_with_dot d)

def ends_with_md (sv : String) : Bool :=
  List.isSuffixOf [Char.ofNat 46, Char.ofNat 109, Char.ofNat 100] sv.data

/-- Leftmost-scan substring test on char lists, modelling Python `in`. -/
def list_contains_sub (pat : List Char) : List Char → Bool
  | [] => pat.isEmpty
  | c :: t => pat.isPrefixOf (c :: t) || list_contains_sub pat t

def str_contains_sub (pat sv : String) : Bool := list_contains_sub pat.data sv.data

/-- Embedding of `SyncManager._scan_local` restricted to file entries (the
directory-entry loop of sync.py 228-231 adds directory records that none of
the checked claims quantify over).  Output pairs are relative path and mtime
in walk order. -/
def scan_local (fs : List FsFile) : List (String × Int) :=
  fs.filterMap (fun f =>
    if dir_pruned f then none
    else if str_starts_with_dot f.name || !ends_with_md f.name then none
    else some (fs_rel f, f.mtime))

/-- Append to a `defaultdict(list)` entry. -/
def dappend (m : List (String × List String)) (k : String) (v : String) :
    List (String × List String) :=
  match dget m k with
  | some l => dset m k (l ++ [v])
  | none => dset m k [v]

structure BuildAcc where
  hash_index : List (String × List String)
  meta : MetaState
  updated : Nat
deriving Repr

/-- The cache-miss path of one `_build_indexes` file: hash the bytes, refresh
the stored hash when a record exists, and append to the hash group. -/
def build_indexes_fresh (has_meta : Bool) (acc : BuildAcc) (f : FsFile)
    (rel : String) : BuildAcc :=
  let digest := md5_hex (bytes_replace [239, 187, 191] []
    (bytes_replace [13, 10] [10] f.content))
  let acc2 :=
    if digest ≠ "" ∧ has_meta ∧ (get_file_info acc.meta rel).isSome then
      { acc with
        meta := update_content_hash acc.meta rel digest
        updated := acc.updated + 1 }
    else acc
  if digest ≠ "" then { acc2 with hash_index := dappend acc2.hash_index digest rel }
  else acc2

/-- One file of the `_build_indexes` walk (dedup.py 84-115): skip dotfiles and
any name containing `.conflict.`; reuse the stored hash when the stored
`local_mtime` matches the on-disk mtime, otherwise hash the content and, when
the path has a metadata record, refresh its stored hash. -/
def build_indexes_step (has_meta : Bool) (acc : BuildAcc) (f : FsFile) : BuildAcc :=
  if dir_pruned f then acc
  else if str_starts_with_dot f.name || str_contains_sub ".conflict." f.name then acc
  else
    let rel := fs_rel f
    let cached_hash : Option String :=
      if has_meta then
        match get_file_info acc.meta rel with
        | some info =>
            match info.content_hash with
            | some ch => if f.mtime = info.local_mtime then some ch else none
            | none => none
        | none => none
      else none
    match cached_hash with
    | some ch =>
        if ch ≠ "" then { acc with hash_index := dappend acc.hash_index ch rel }
        else build_indexes_fresh has_meta acc f rel
    | none => build_indexes_fresh has_meta acc f rel

/-- Embedding of the hash side of `_build_indexes` over the walk list. -/
def build_indexes (fs : List FsFile) (meta : MetaState) (has_meta : Bool) :
    BuildAcc :=
  fs.foldl (build_indexes_step has_meta) ⟨[], meta, 0⟩

/-- The conflict-backup filename of claim C2, shaped as `_backup_file`
produces them (sync.py 530-548): original stem, `.conflict.`, timestamp, and
the original `.md` extension. -/
def c2_conflict_file : FsFile :=
  ⟨[], "a.conflict.20240101_120000.md", [104, 105], 7⟩

/-- C2: the dedup index builder excludes the conflict backup (its hash index
stays empty), but the local scanner does not: `_scan_local` filters only on a
leading dot and the `.md` extension, so the backup file appears in the scan
output and becomes a sync candidate, contradicting the exclusion the claim
and spec state for the scanner. -/
theorem c2_conflict_scan_includes_backup :
    str_contains_sub ".conflict." "a.conflict.20240101_120000.md" = true ∧
      scan_local [c2_conflict_file] = [("a.conflict.20240101_120000.md", 7)] ∧
      (build_indexes [c2_conflict_file] empty_meta false).hash_index = [] := by
  refine ⟨by decide, by decide, by decide⟩


/-! ### Dedup engine

Embedding of `auto_dedup` (dedup.py 183-365) over the indexes produced above.
`os.path.getsize` and `os.path.getmtime` lookups made during deduplication are
supplied as the environment functions `sizes` and `mtimes` (`none` models
`OSError`); success of `os.remove` and of the cloud delete call are supplied
as `remove_ok` and `delete_ok`.  Filesystem and cloud effects, and the
metadata saves, are recorded as events; collision warnings and dry-run plan
lines are counted. -/

def empty_md5 : String := "d41d8cd98f00b204e9800998ecf8427e"

structure DedupStats where
  deleted : Int
  cloud_deleted : Int
  kept : Int
  skipped : Int
  groups : Int
  protected_refs : Int
deriving DecidableEq, Repr

def empty_dedup_stats : DedupStats := ⟨0, 0, 0, 0, 0, 0⟩

inductive DedupEvent where
  | save_meta
  | remove_local (path : String)
  | gc_parents (path : String)
  | delete_cloud (file_id : String)
deriving DecidableEq, Repr

structure DedupLog where
  events : List DedupEvent
  warnings : Nat
  plans_printed : Nat
deriving DecidableEq, Repr

structure DedupAction where
  remove_path : String
  cloud_file_id : Option String
  keep_path : String
deriving DecidableEq, Repr

/-- ASCII lowercasing of a character, as `str.lower` acts on extensions. -/
def to_lower_char (c : Char) : Char :=
  if 65 ≤ c.toNat ∧ c.toNat ≤ 90 then Char.ofNat (c.toNat + 32) else c

def basename_chars (cs : List Char) : List Char :=
  ((cs.reverse.takeWhile (fun c => c ≠ Char.ofNat 47)).reverse)

/-- Last path component, as `os.path.basename` on slash paths. -/
def basename (p : String) : String := String.mk (basename_chars p.data)

/-- Extension including its dot, as `os.path.splitext` returns it for the
names that reach dedup (dotfile names are filtered out before this is used,
so the leading-dot special case of `splitext` never fires). -/
def ext_chars (cs : List Char) : List Char :=
  let rev_after := cs.reverse.takeWhile (fun c => c ≠ Char.ofNat 46)
  if rev_after.length = cs.length then []
  else Char.ofNat 46 :: rev_after.reverse

def asset_exts : List String :=
  [".png", ".jpg", ".jpeg", ".gif", ".bmp", ".webp", ".svg", ".ico",
   ".pdf", ".amr", ".mp3", ".mp4", ".wav"]

/-- Embedding of `_is_asset` (dedup.py 147-149). -/
def is_asset (p : String) : Bool :=
  asset_exts.contains
    (String.mk ((ext_chars (basename_chars p.data)).map to_lower_char))

/-- Embedding of `_cloud_score` (dedup.py 152-180): path depth, negated
basename length, negated create time with fallbacks to cloud mtime, local
mtime, then on-disk mtime. -/
def cloud_score (meta : MetaState) (has_meta : Bool)
    (mtimes : String → Option Int) (path : String) : Int × Int × Int :=
  let depth : Int := ((path.data.filter (fun c => c = Char.ofNat 47)).length : Int)
  let name_clean : Int := -((basename path).data.length : Int)
  let info := if has_meta then get_file_info meta path else none
  let ctime1 : Int :=
    match info with
    | some i =>
        match i.create_time with
        | some ct => ct
        | none => 0
    | none => 0
  let ctime2 : Int :=
    if ctime1 = 0 then
      match info with
      | some i =>
          if i.cloud_mtime ≠ 0 then i.cloud_mtime
          else if i.local_mtime ≠ 0 then i.local_mtime
          else 0
      | none => 0
    else ctime1
  let ctime3 : Int :=
    if ctime2 = 0 then
      match mtimes path with
      | some m => m
      | none => 0
    else ctime2
  (depth, name_clean, -ctime3)

/-- Lexicographic order on score triples (Python tuple comparison). -/
def score_pair_le (x y : Int × Int × Int) : Bool :=
  decide (x.1 < y.1) ||
    (x.1 == y.1 &&
      (decide (x.2.1 < y.2.1) ||
        (x.2.1 == y.2.1 && decide (x.2.2 ≤ y.2.2))))

/-- Stable insertion used to model Python `sorted` (stable, ascending in the
supplied order; a later element goes after equal earlier ones). -/
def stable_insert {α : Type} (le : α → α → Bool) (x : α) : List α → List α
  | [] => [x]
  | y :: t => if le y x then y :: stable_insert le x t else x :: y :: t

def stable_sort {α : Type} (le : α → α → Bool) (l : List α) : List α :=
  l.foldl (fun acc x => stable_insert le x acc) []

/-- Python `sorted(paths, key=score, reverse=True)`: stable descending. -/
def sort_desc_by_score (meta : MetaState) (has_meta : Bool)
    (mtimes : String → Option Int) (paths : List String) : List String :=
  stable_sort
    (fun a b => score_pair_le (cloud_score meta has_meta mtimes b)
      (cloud_score meta has_meta mtimes a)) paths

/-- Lexicographic string order by code points (Python `<=` on the keys of
`sorted(dup_groups.items())`). -/
def chars_le : List Char → List Char → Bool
  | [], _ => true
  | _ :: _, [] => false
  | a :: as2, b :: bs =>
      if a.toNat < b.toNat then true
      else if b.toNat < a.toNat then false
      else chars_le as2 bs

def str_le (a b : String) : Bool := chars_le a.data b.data

def size_group_add (m : List (Int × List String)) (k : Int) (v : String) :
    List (Int × List String) :=
  match m with
  | [] => [(k, [v])]
  | (k0, l) :: t => if k0 = k then (k0, l ++ [v]) :: t else (k0, l) :: size_group_add t k v

/-- The per-hash size grouping of the collision guard (dedup.py 215-221);
`OSError` on `getsize` stores size `-1` as the code does. -/
def build_size_groups (sizes : String → Option Int) (paths : List String) :
    List (Int × List String) :=
  paths.foldl (fun m p => size_group_add m ((sizes p).getD (-1)) p) []

/-- Collision guard for one raw hash group (dedup.py 214-228): size
sub-groups of two or more survive under the key `hash_size`; singleton
sub-groups of a split group are warned about and counted as skipped. -/
def guard_one_group (h : String) (sizes : String → Option Int)
    (paths : List String) : List (String × List String) × Nat × Nat :=
  let sgs := build_size_groups sizes paths
  sgs.foldl
    (fun (acc : List (String × List String) × Nat × Nat) e =>
      if e.2.length > 1 then
        (acc.1 ++ [(h ++ "_" ++ toString e.1, e.2)], acc.2.1, acc.2.2)
      else if e.2.length = 1 ∧ sgs.length > 1 then
        (acc.1, acc.2.1 + 1, acc.2.2 + 1)
      else acc)
    ([], 0, 0)

/-- Classification of one surviving duplicate group (dedup.py 234-323):
empty-file skips, the cloud/local partition, the mixed-group rule with
reference protection, the all-cloud rule with asset handling and scoring, and
the all-local skip. -/
def classify_group (sizes mtimes : String → Option Int)
    (referenced : List String) (meta : MetaState) (has_meta : Bool)
    (st : DedupStats × List DedupAction) (grp : String × List String) :
    DedupStats × List DedupAction :=
  let stats := { st.1 with groups := st.1.groups + 1 }
  let h := grp.1
  let paths := grp.2
  if h = empty_md5 then ({ stats with skipped := stats.skipped + 1 }, st.2)
  else
    match sizes (paths.headD "") with
    | none => ({ stats with skipped := stats.skipped + 1 }, st.2)
    | some sz0 =>
        if sz0 = 0 then ({ stats with skipped := stats.skipped + 1 }, st.2)
        else
          let is_cloud := fun p => has_meta &&
            (match get_file_info meta p with
             | some info => info.file_id != ""
             | none => false)
          let cloud_paths := paths.filter is_cloud
          let local_paths := paths.filter (fun p => !is_cloud p)
          if cloud_paths ≠ [] ∧ local_paths ≠ [] then
            let to_remove := local_paths.filter
              (fun lp => !(is_asset lp && referenced.contains lp))
            let stats2 := { stats with protected_refs := stats.protected_refs +
              ((local_paths.length - to_remove.length : Nat) : Int) }
            if to_remove = [] then
              ({ stats2 with skipped := stats2.skipped + 1 }, st.2)
            else
              let keep_example := cloud_paths.headD ""
              ({ stats2 with
                  kept := stats2.kept + (cloud_paths.length : Int)
                  deleted := stats2.deleted + (to_remove.length : Int) },
                st.2 ++ to_remove.map (fun rp =>
                  (⟨rp, none, keep_example⟩ : DedupAction)))
          else
            if cloud_paths.length > 1 ∧ local_paths = [] then
              let keep_remove : Option (List String × List String) :=
                if cloud_paths.any (fun p => is_asset p) then
                  let ref_paths := cloud_paths.filter (fun p => referenced.contains p)
                  let unref_paths := cloud_paths.filter (fun p => !referenced.contains p)
                  if ref_paths ≠ [] ∧ unref_paths ≠ [] then some (ref_paths, unref_paths)
                  else if ref_paths = [] then
                    let sorted_paths := sort_desc_by_score meta has_meta mtimes cloud_paths
                    some ([sorted_paths.headD ""], sorted_paths.tail)
                  else none
                else
                  let sorted_paths := sort_desc_by_score meta has_meta mtimes cloud_paths
                  some ([sorted_paths.headD ""], sorted_paths.tail)
              match keep_remove with
              | none => ({ stats with skipped := stats.skipped + 1 }, st.2)
              | some kr =>
                  let keep_paths := kr.1
                  let remove_paths := kr.2
                  let new_actions := remove_paths.map (fun rp =>
                    let fid : Option String :=
                      if has_meta then
                        match get_file_info meta rp with
                        | some info => some info.file_id
                        | none => none
                      else none
                    (⟨rp, fid, keep_paths.headD ""⟩ : DedupAction))
                  ({ stats with
                      kept := stats.kept + (keep_paths.length : Int)
                      deleted := stats.deleted + (remove_paths.length : Int)
                      cloud_deleted := stats.cloud_deleted + (remove_paths.length : Int) },
                    st.2 ++ new_actions)
            else ({ stats with skipped := stats.skipped + 1 }, st.2)

/-- Execution of one scheduled deletion (dedup.py 334-360): a dry run only
prints the plan; otherwise the local file is removed (failure decrements the
deleted counter and skips the cloud step), the record is evicted, empty
parents are garbage-collected, and the cloud node is deleted when a cloud id
and a client are available (failure decrements the cloud counter). -/
def execute_step (remove_ok delete_ok : String → Bool)
    (has_meta has_api dry_run : Bool)
    (st : DedupStats × MetaState × DedupLog) (a : DedupAction) :
    DedupStats × MetaState × DedupLog :=
  if dry_run then
    (st.1, st.2.1,
      { st.2.2 with plans_printed := st.2.2.plans_printed + 1 })
  else
    if remove_ok a.remove_path then
      let meta2 := if has_meta then remove_file st.2.1 a.remove_path else st.2.1
      let log2 := { st.2.2 with events := st.2.2.events ++
        [DedupEvent.remove_local a.remove_path, DedupEvent.gc_parents a.remove_path] }
      match a.cloud_file_id with
      | some fid =>
          if fid ≠ "" ∧ has_api then
            if delete_ok fid then
              (st.1, meta2,
                { log2 with events := log2.events ++ [DedupEvent.delete_cloud fid] })
            else ({ st.1 with cloud_deleted := st.1.cloud_deleted - 1 }, meta2, log2)
          else (st.1, meta2, log2)
      | none => (st.1, meta2, log2)
    else ({ st.1 with deleted := st.1.deleted - 1 }, st.2.1, st.2.2)

/-- Embedding of `auto_dedup` (dedup.py 183-365): build indexes (possibly
refreshing cached hashes and saving the store), keep hash groups of two or
more, apply the collision guard, classify the surviving groups in sorted key
order, then execute the planned deletions and save, both suppressed by
`dry_run`. -/
def auto_dedup (fs : List FsFile) (meta : MetaState) (referenced : List String)
    (sizes mtimes : String → Option Int) (remove_ok delete_ok : String → Bool)
    (has_meta has_api dry_run : Bool) : DedupStats × MetaState × DedupLog :=
  let acc := build_indexes fs meta has_meta
  let log0 : DedupLog :=
    if acc.updated > 0 ∧ has_meta then ⟨[DedupEvent.save_meta], 0, 0⟩ else ⟨[], 0, 0⟩
  let raw := acc.hash_index.filter (fun e => e.2.length > 1)
  if raw = [] then (empty_dedup_stats, acc.meta, log0)
  else
    let guard := raw.foldl
      (fun (g : List (String × List String) × Nat × Nat) e =>
        let one := guard_one_group e.1 sizes e.2
        (g.1 ++ one.1, g.2.1 + one.2.1, g.2.2 + one.2.2))
      ([], 0, 0)
    let stats0 := { empty_dedup_stats with skipped := (guard.2.1 : Int) }
    let log1 := { log0 with warnings := log0.warnings + guard.2.2 }
    let sorted_groups := stable_sort (fun a b => str_le a.1 b.1) guard.1
    let cls := sorted_groups.foldl
      (classify_group sizes mtimes referenced acc.meta has_meta) (stats0, [])
    if cls.2 = [] then (cls.1, acc.meta, log1)
    else
      let ex := cls.2.foldl (execute_step remove_ok delete_ok has_meta has_api dry_run)
        (cls.1, acc.meta, log1)
      if ¬dry_run ∧ has_meta then
        (ex.1, ex.2.1,
          { ex.2.2 with events := ex.2.2.events ++ [DedupEvent.save_meta] })
      else ex


/-- Metadata for the collision scenario of claim C7, mirroring the unit test
`DedupCollisionTest`: two cloud-backed records share the stored hash
`collision_hash` and their stored local mtimes match the on-disk mtimes, so
index construction reuses the cached hashes and one raw group of two paths
with different sizes reaches the guard. -/
def c7_meta : MetaState :=
  set_file_info
    (set_file_info empty_meta "file1.md" "WEB1" 1 1 none none
      (some "collision_hash") none)
    "file2.md" "WEB2" 2 2 none none (some "collision_hash") none

def c7_sizes : String → Option Int := fun p =>
  if p = "file1.md" then some 5
  else if p = "file2.md" then some 29
  else none

/-- C7 counterexample: on the two-file collision scenario (same stored hash,
sizes 5 and 29), `auto_dedup` deletes nothing and warns twice as the claim
says, but its `groups` counter is 0, not 1: the guard splits the group before
the processing loop that increments `groups` ever sees it, and `skipped` is
incremented once per singleton sub-group, i.e. twice. -/
theorem c7_collision_guard_counterexample :
    auto_dedup
        [⟨[], "file1.md", [104, 101, 108, 108, 111], 1⟩,
         ⟨[], "file2.md", [108, 111, 110, 103], 2⟩]
        c7_meta [] c7_sizes (fun _ => none) (fun _ => true) (fun _ => true)
        true true false =
      (⟨0, 0, 0, 2, 0, 0⟩, c7_meta, ⟨[], 2, 0⟩) := by
  rfl

/-- C7 amended: whenever `auto_dedup` encounters exactly two files whose
cached hashes agree but whose sizes are 5 and 29 bytes, the collision guard
excludes them: nothing is deleted, no filesystem or cloud event is emitted,
two warnings are logged, `skipped` is incremented twice, and `groups` stays 0
because the split group never reaches the processing loop.  The file
contents, reference set, environment callbacks and mode flags are arbitrary. -/
theorem c7_amended_collision_guard (c1 c2 : List Nat) (referenced : List String)
    (mtimes : String → Option Int) (remove_ok delete_ok : String → Bool)
    (has_api dry_run : Bool) :
    auto_dedup [⟨[], "file1.md", c1, 1⟩, ⟨[], "file2.md", c2, 2⟩]
        c7_meta referenced c7_sizes mtimes remove_ok delete_ok
        true has_api dry_run =
      (⟨0, 0, 0, 2, 0, 0⟩, c7_meta, ⟨[], 2, 0⟩) := by
  rfl

theorem execute_fold_dry (remove_ok delete_ok : String → Bool)
    (has_meta has_api : Bool) (actions : List DedupAction)
    (st : DedupStats × MetaState × DedupLog) :
    actions.foldl (execute_step remove_ok delete_ok has_meta has_api true) st =
      (st.1, st.2.1,
        { st.2.2 with plans_printed := st.2.2.plans_printed + actions.length }) := by
  induction actions generalizing st with
  | nil => simp
  | cons a t ih =>
      rw [List.foldl_cons]
      rw [show execute_step remove_ok delete_ok has_meta has_api true st a =
          (st.1, st.2.1,
            { st.2.2 with plans_printed := st.2.2.plans_printed + 1 }) from rfl]
      rw [ih]
      simp only [List.length_cons]
      have harith : st.2.2.plans_printed + 1 + t.length =
          st.2.2.plans_printed + (t.length + 1) := by omega
      rw [harith]

/-- C8 amended: with `dry_run = true` the dedup pass emits no filesystem or
cloud events and skips the dedup-phase metadata save — the event trace is
exactly the index-building save, which does occur whenever index construction
refreshed at least one cached hash with a metadata store attached.  The store
carried forward is the one index construction produced. -/
theorem c8_amended_dry_run (fs : List FsFile) (meta : MetaState)
    (referenced : List String) (sizes mtimes : String → Option Int)
    (remove_ok delete_ok : String → Bool) (has_meta has_api : Bool) :
    ((auto_dedup fs meta referenced sizes mtimes remove_ok delete_ok
          has_meta has_api true).2.2).events =
        (if (build_indexes fs meta has_meta).updated > 0 ∧ has_meta then
          [DedupEvent.save_meta] else []) ∧
      (auto_dedup fs meta referenced sizes mtimes remove_ok delete_ok
          has_meta has_api true).2.1 = (build_indexes fs meta has_meta).meta := by
  simp only [auto_dedup]
  split
  · constructor
    · split <;> rfl
    · rfl
  · rw [execute_fold_dry]
    simp only [not_true_eq_false, false_and, if_false]
    constructor
    · split
      · split <;> rfl
      · split <;> rfl
    · split <;> rfl

/-- C8 counterexample: a dry run on a store whose cached hash is stale (the
stored local mtime 4 differs from the on-disk mtime 5) refreshes the hash
during index construction and saves the metadata file, so the persisted
metadata is modified despite `dry_run = true`. -/
def c8_cex_meta : MetaState :=
  set_file_info empty_meta "a.md" "WEB1" 1 4 none none (some "stalehash") none

theorem c8_dry_run_counterexample :
    ((auto_dedup [⟨[], "a.md", [97], 5⟩] c8_cex_meta [] (fun _ => some 1)
          (fun _ => none) (fun _ => true) (fun _ => true) true false
          true).2.2).events = [DedupEvent.save_meta] ∧
      (build_indexes [⟨[], "a.md", [97], 5⟩] c8_cex_meta true).updated = 1 := by
  constructor <;> rfl


end Youdao
